import Mathlib

/-!
# Pathfinder host driver (`examples/pf/ref/main.cpp`)

A shallow embedding of `Application::run` and `Application::Application` of the
pathfinder reference driver, together with an instrumented compute engine, and the
properties of the chunked sweep proved over that embedding.

Conventions of the embedding:

* `int` quantities (`rows`, `cols`, `height`, `iteration`) are values of `Int` in the
  32-bit range, and every `int` operation of the driver that can leave that range
  (`rows * cols`, `rows - 1`, `rows - height - 1`, `height += cfg->height`, the value
  returned by `atoi`) is reduced by `wrapInt`, the two's-complement wrap-around that
  the usual targets perform on signed overflow.
* `size_t` quantities are values of `Nat`; a conversion `int → size_t` is taken
  modulo `2 ^ 64`.
* buffer sizes are counted in `int` elements rather than bytes.
-/

namespace Pf

/-! ## Work-group sizing (`main.cpp` lines 73–86) -/

/-- The loop `for ( nthreads = lwsize; gwsize % nthreads != 0; --nthreads );`.
The argument is the current value of `nthreads`.  The value `0` is never reached
from a positive start (`gwsize % 1 = 0`); there the C loop would divide by zero,
and the model stops. -/
def shrinkLoop (gwsize : Nat) : Nat → Nat
  | 0 => 0
  | n + 1 => if gwsize % (n + 1) ≠ 0 then shrinkLoop gwsize n else n + 1

/-- Lines 80–86 of `run()`: the local size obtained from the global size `gwsize`
and the (non-zero) maximum work-group size `lwsize` reported by the engine. -/
def localWorkSize (gwsize lwsize : Nat) : Nat :=
  if lwsize > gwsize then gwsize else shrinkLoop gwsize lwsize

/-! ## The sweep kernel -/

/-- Modelled from the spec: the minimum taken by the single-row update rule of the
sweep kernel (the kernel source is not part of `main.cpp`): the least of `prev[c-1]`,
`prev[c]`, `prev[c+1]`, where a neighbour outside `[0, cols)` is left out. -/
def minNeighbours (cols : Nat) (prev : List Int) (c : Nat) : Int :=
  let m := prev.getD c 0
  let m := if 0 < c then min m (prev.getD (c - 1) 0) else m
  if c + 1 < cols then min m (prev.getD (c + 1) 0) else m

/-- Modelled from the spec: one row advance of the sweep kernel,
`new[c] = wall[row][c] + min(prev[c-1], prev[c], prev[c+1])`.  The wall buffer holds
the grid rows `1 .. rows-1` row-major, so the advance from row `r` to row `r + 1`
reads its costs at offset `r * cols`. -/
def rowUpdate (wall : List Int) (cols : Nat) (r : Nat) (prev : List Int) : List Int :=
  (List.range cols).map fun c => wall.getD (r * cols + c) 0 + minNeighbours cols prev c

/-- Modelled from the spec: the sweep kernel of one dispatch, which applies the
single-row update rule `iteration` times in sequence, starting at row `height`. -/
def sweepKernel (wall : List Int) (cols : Nat) : Nat → Nat → List Int → List Int
  | 0, _, prev => prev
  | iteration + 1, height, prev =>
    sweepKernel wall cols iteration (height + 1) (rowUpdate wall cols height prev)

/-! ## The compute engine -/

/-- A value bound to a kernel argument slot by `setKernelArg`. -/
inductive KernelArg
  | unset
  | int (v : Int)
  | mem (handle : Nat)
  | localMem (size : Nat)
  deriving DecidableEq

/-- The scalar carried by a kernel argument (`0` for any other kind). -/
def KernelArg.asInt : KernelArg → Int
  | .int v => v
  | _ => 0

/-- The buffer handle carried by a kernel argument (`0` for any other kind). -/
def KernelArg.asMem : KernelArg → Nat
  | .mem h => h
  | _ => 0

/-- One entry of the dispatch log of the instrumented engine: the kernel arguments
in force when the dispatch was issued, and its global and local sizes. -/
structure Dispatch where
  iteration : Int
  height : Int
  src : Nat
  dst : Nat
  gwsize : Nat
  lwsize : Nat
  deriving DecidableEq

/-- Modelled from the spec: the compute engine behind `cl` (declared in `common.hpp`,
which is not part of the sources), as an instrumented fake.  `maxWorkGroupSize` and
`failAt` are its fixed behaviour: the `k`-th fallible call (allocate, bind, dispatch,
read) fails iff `failAt k`.  The other fields are its state and its logs. -/
structure Engine where
  maxWorkGroupSize : Nat
  failAt : Nat → Bool
  calls : Nat
  nextHandle : Nat
  mem : Nat → List Int
  args : Nat → KernelArg
  allocated : List Nat
  released : List Nat
  dispatched : List Dispatch
  reads : List Nat

/-- An engine on which nothing has happened yet. -/
def Engine.fresh (maxWorkGroupSize : Nat) (failAt : Nat → Bool) : Engine :=
  { maxWorkGroupSize := maxWorkGroupSize, failAt := failAt, calls := 0, nextHandle := 0,
    mem := fun _ => [], args := fun _ => KernelArg.unset,
    allocated := [], released := [], dispatched := [], reads := [] }

/-- Modelled from the spec: `maxWorkGroupSize(dim) -> size`. -/
def Engine.getWorkGroupSize (cl : Engine) (_dim : Nat) : Nat := cl.maxWorkGroupSize

/-- Modelled from the spec: `allocateBuffer(size, access, initialData) -> BufferHandle`,
which may fail.  A buffer created without initial data is taken to hold zeros. -/
def Engine.createBuffer (cl : Engine) (size : Nat) (init : Option (List Int)) :
    Option Nat × Engine :=
  if cl.failAt cl.calls then (none, { cl with calls := cl.calls + 1 })
  else
    (some cl.nextHandle,
      { cl with
        calls := cl.calls + 1
        nextHandle := cl.nextHandle + 1
        mem := fun h =>
          if h = cl.nextHandle then
            (match init with
              | some d => d.take size
              | none => List.replicate size 0)
          else cl.mem h
        allocated := cl.allocated ++ [cl.nextHandle] })

/-- Modelled from the spec: `bindKernelArgument(kernelSlot, argIndex, value)`, which
may fail. -/
def Engine.setKernelArg (cl : Engine) (idx : Nat) (v : KernelArg) : Bool × Engine :=
  if cl.failAt cl.calls then (false, { cl with calls := cl.calls + 1 })
  else
    (true,
      { cl with
        calls := cl.calls + 1
        args := fun i => if i = idx then v else cl.args i })

/-- A sequence of `setKernelArg` calls, stopping at the first one that fails. -/
def Engine.setKernelArgs (cl : Engine) : List (Nat × KernelArg) → Bool × Engine
  | [] => (true, cl)
  | (idx, v) :: rest =>
    match cl.setKernelArg idx v with
    | (false, cl1) => (false, cl1)
    | (true, cl1) => Engine.setKernelArgs cl1 rest

/-- Modelled from the spec: `dispatch(kernelSlot, globalSize, localSize)`, which may
fail; on success the sweep kernel has run on the bound arguments (slot 0 the
iteration count, 1 the wall buffer, 2 the source, 3 the destination, 4 the column
count, 6 the starting row) and the destination buffer holds its output. -/
def Engine.enqueueNDRangeKernel (cl : Engine) (gwsize lwsize : Nat) : Bool × Engine :=
  if cl.failAt cl.calls then (false, { cl with calls := cl.calls + 1 })
  else
    let iteration := (cl.args 0).asInt
    let wall := (cl.args 1).asMem
    let src := (cl.args 2).asMem
    let dst := (cl.args 3).asMem
    let cols := (cl.args 4).asInt
    let height := (cl.args 6).asInt
    (true,
      { cl with
        calls := cl.calls + 1
        mem := fun h =>
          if h = dst then
            sweepKernel (cl.mem wall) cols.toNat iteration.toNat height.toNat (cl.mem src)
          else cl.mem h
        dispatched := cl.dispatched ++
          [{ iteration := iteration, height := height, src := src, dst := dst,
             gwsize := gwsize, lwsize := lwsize }] })

/-- Modelled from the spec: `readBuffer(handle, destination, size)`, a blocking copy
back to the host, which may fail. -/
def Engine.enqueueReadBuffer (cl : Engine) (h : Nat) (size : Nat) :
    Option (List Int) × Engine :=
  if cl.failAt cl.calls then (none, { cl with calls := cl.calls + 1 })
  else
    (some ((cl.mem h).take size),
      { cl with calls := cl.calls + 1, reads := cl.reads ++ [h] })

/-- Modelled from the spec: `releaseBuffer(handle)`. -/
def Engine.releaseMemObject (cl : Engine) (h : Nat) : Engine :=
  { cl with released := cl.released ++ [h] }

/-! ## `Application::run` (`main.cpp` lines 70–145) -/

/-- The configuration `cfg` read by `run()`: the grid dimensions, the chunk height
and the row-major cost grid `data` (`rows * cols` entries, row 0 first). -/
structure Config where
  cols : Int
  rows : Int
  height : Int
  data : List Int
  deriving DecidableEq

/-- The constant `HALO`. -/
def HALO : Nat := 3

/-- Conversion of an integer to `size_t`. -/
def toSizeT (x : Int) : Nat := (x % 2 ^ 64).toNat

/-- The largest value of an `int`. -/
def INT_MAX : Int := 2147483647

/-- The value stored in a 32-bit `int` for the mathematical result `x` of an `int`
operation: `x` itself inside `[-2^31, 2^31)`, wrapped around outside. -/
def wrapInt (x : Int) : Int := (x + 2147483648) % 4294967296 - 2147483648

/-- The value of `cfg->height * Config::HALO` stored in the `int border`: an
unsigned 32-bit product, read back as a signed 32-bit integer. -/
def borderOf (height : Int) : Int :=
  let u := (height * HALO) % 2 ^ 32
  if u < 2 ^ 31 then u else u - 2 ^ 32

/-- How `run()` ends. -/
inductive Outcome
  | aborted
  | failed
  | unfinished
  | completed (result : List Int)
  deriving DecidableEq

/-- How the chunk loop of `run()` ends: normally, with the final value of `src`; on a
failing engine call; or still running when the fuel is used up. -/
inductive LoopExit
  | done (src : Int)
  | failed
  | unfinished
  deriving DecidableEq

/-- The array `cl_mem result_d[2]`, indexed by `src` or `dst`. -/
def resultD (r0 r1 : Nat) (i : Int) : Nat := if i = 0 then r0 else r1

/-- The eleven kernel arguments bound in the loop body (lines 97–112) for the chunk
that starts at row `height` and reads buffer `src`. -/
def chunkArgs (cfg : Config) (lwsize wall_d r0 r1 : Nat) (height src : Int) :
    List (Nat × KernelArg) :=
  let iteration := min cfg.height (wrapInt (wrapInt (cfg.rows - height) - 1))
  let border := borderOf cfg.height
  let halo : Int := HALO
  let dst := 1 - src
  [(0, KernelArg.int iteration),
   (1, KernelArg.mem wall_d),
   (2, KernelArg.mem (resultD r0 r1 src)),
   (3, KernelArg.mem (resultD r0 r1 dst)),
   (4, KernelArg.int cfg.cols),
   (5, KernelArg.int cfg.rows),
   (6, KernelArg.int height),
   (7, KernelArg.int border),
   (8, KernelArg.int halo),
   (9, KernelArg.localMem lwsize),
   (10, KernelArg.localMem lwsize)]

/-- The chunk loop of `run()` (lines 95–117), from the loop variable `height` and the
current `src`.  The first argument bounds the number of loop iterations still
allowed; `wall_d`, `r0`, `r1` are the three buffer handles.  The variable `src` only
ever holds `0` or `1`, so `1 - src` stays in range. -/
def chunkLoop (cfg : Config) (gwsize lwsize wall_d r0 r1 : Nat) :
    Nat → Int → Int → Engine → LoopExit × Engine
  | 0, height, src, cl =>
    if height < wrapInt (cfg.rows - 1) then (LoopExit.unfinished, cl)
    else (LoopExit.done src, cl)
  | fuel + 1, height, src, cl =>
    if height < wrapInt (cfg.rows - 1) then
      let dst := 1 - src
      match cl.setKernelArgs (chunkArgs cfg lwsize wall_d r0 r1 height src) with
      | (false, cl1) => (LoopExit.failed, cl1)
      | (true, cl1) =>
        match cl1.enqueueNDRangeKernel gwsize lwsize with
        | (false, cl2) => (LoopExit.failed, cl2)
        | (true, cl2) =>
          chunkLoop cfg gwsize lwsize wall_d r0 r1 fuel (wrapInt (height + cfg.height)) dst cl2
    else (LoopExit.done src, cl)

/-- The method `run()`: work-group sizing, the three buffers, the chunk loop, the
read-back and the releases.  Returned are the way the run ends (with `cfg->result`
when it completes) and the engine as the run leaves it.  An engine call that fails
is fatal: the run stops there.  Timing and the optional output file are left out. -/
def run (fuel : Nat) (cfg : Config) (cl : Engine) : Outcome × Engine :=
  let gwsize := toSizeT (wrapInt (cfg.rows * cfg.cols))
  let lwsize := cl.getWorkGroupSize 0
  if lwsize = 0 then (Outcome.aborted, cl)
  else
    let lwsize := localWorkSize gwsize lwsize
    match cl.createBuffer (toSizeT (gwsize - cfg.cols))
        (some (cfg.data.drop cfg.cols.toNat)) with
    | (none, cl1) => (Outcome.failed, cl1)
    | (some wall_d, cl1) =>
      match cl1.createBuffer (toSizeT cfg.cols) (some cfg.data) with
      | (none, cl2) => (Outcome.failed, cl2)
      | (some r0, cl2) =>
        match cl2.createBuffer (toSizeT cfg.cols) none with
        | (none, cl3) => (Outcome.failed, cl3)
        | (some r1, cl3) =>
          match chunkLoop cfg gwsize lwsize wall_d r0 r1 fuel 0 0 cl3 with
          | (LoopExit.failed, cl4) => (Outcome.failed, cl4)
          | (LoopExit.unfinished, cl4) => (Outcome.unfinished, cl4)
          | (LoopExit.done src, cl4) =>
            match cl4.enqueueReadBuffer (resultD r0 r1 src) (toSizeT cfg.cols) with
            | (none, cl5) => (Outcome.failed, cl5)
            | (some result, cl5) =>
              (Outcome.completed result,
                ((cl5.releaseMemObject wall_d).releaseMemObject r0).releaseMemObject r1)

/-- The grid of the end-to-end example: `cols = 5`, `rows = 3`, row 0 all zero and
the wall rows `[2,1,3,4,2]`, `[1,5,1,2,3]`, with chunk height `H`. -/
def exampleGrid (H : Int) : Config :=
  { cols := 5, rows := 3, height := H,
    data := [0, 0, 0, 0, 0, 2, 1, 3, 4, 2, 1, 5, 1, 2, 3] }

/-- A grid of one column and `2^30 + 2` rows of zero cost, swept in chunks of height
`2^30`: the third value of the loop variable, `2^31`, does not fit an `int`. -/
def overflowGrid : Config :=
  { cols := 1, rows := 1073741826, height := 1073741824,
    data := List.replicate 1073741826 0 }

/-- An engine none of whose calls ever fails. -/
def Engine.Reliable (cl : Engine) : Prop := ∀ k, cl.failAt k = false

/-! ## The reference sequential sweep -/

/-- The cost at row `r`, column `c` of the row-major grid. -/
def Config.cost (cfg : Config) (r c : Nat) : Int :=
  cfg.data.getD (r * cfg.cols.toNat + c) 0

/-- Row 0 of the grid, the initial cumulative costs. -/
def Config.row0 (cfg : Config) : List Int := cfg.data.take cfg.cols.toNat

/-- The cumulative costs of grid row `r` from those of row `r - 1`, by the
single-row update rule. -/
def naiveRow (cfg : Config) (r : Nat) (prev : List Int) : List Int :=
  (List.range cfg.cols.toNat).map fun c =>
    cfg.cost r c + minNeighbours cfg.cols.toNat prev c

/-- The naive sweep continued for `n` more rows, the next row to compute being `r`. -/
def naiveFrom (cfg : Config) : Nat → Nat → List Int → List Int
  | 0, _, prev => prev
  | n + 1, r, prev => naiveFrom cfg n (r + 1) (naiveRow cfg r prev)

/-- The reference result: the sequential sweep over the rows `1 .. rows-1`, one row
at a time, starting from row 0. -/
def naiveSweep (cfg : Config) : List Int :=
  naiveFrom cfg (cfg.rows.toNat - 1) 1 cfg.row0

/-! ## `Application::Application` and `main` (`main.cpp` lines 20–53, 163–176) -/

/-- The C predicate `isspace`. -/
def isspace (c : Char) : Bool := c = ' ' || (9 ≤ c.toNat && c.toNat ≤ 13)

/-- The value of the leading decimal digits of a string, after `acc`. -/
def digitsValue : List Char → Nat → Nat
  | [], acc => acc
  | c :: cs, acc => if c.isDigit then digitsValue cs (acc * 10 + (c.toNat - 48)) else acc

/-- The mathematical value that `strtol` reads in base ten off the characters of its
argument: leading white space, an optional sign, then decimal digits; `0` when there
is no digit. -/
def atoiChars : List Char → Int
  | [] => 0
  | c :: cs =>
    if isspace c then atoiChars cs
    else if c = '-' then -(digitsValue cs 0 : Int)
    else if c = '+' then (digitsValue cs 0 : Int)
    else (digitsValue (c :: cs) 0 : Int)

/-- The value `strtol` returns for the mathematical value `x` of the digits: `x`
itself inside the range of `long`, the nearest end of that range outside. -/
def clampLong (x : Int) : Int := max (-9223372036854775808) (min 9223372036854775807 x)

/-- The libc function `atoi`, as glibc computes it: `(int) strtol(s, NULL, 10)`, the
saturated `long` value truncated to a 32-bit `int`. -/
def atoi (s : String) : Int := wrapInt (clampLong (atoiChars s.toList))

/-- What the constructor leaves behind: the number of times the usage message was
printed, and either the configuration it built or, when it faulted on the way (a
null pointer handed to `atoi`, or a write outside the grid allocation), nothing. -/
structure Startup where
  usageCalls : Nat
  outfile : Option String
  config : Option Config

/-- The method `usage`: it prints the usage message and returns to its caller.  The
model counts the messages printed. -/
def usage (usageCalls : Nat) : Nat := usageCalls + 1

/-- The `getopt` loop (lines 26–35) over the options `getopt` returns, each with its
`optarg`: `d` and `p` are scanned, `o` sets the output file, anything else prints
the usage message.  The state is the usage count and the output file. -/
def optionLoop : List (Char × String) → Nat × Option String → Nat × Option String
  | [], st => st
  | (ch, optarg) :: rest, (usageCalls, outfile) =>
    if ch = 'd' then optionLoop rest (usageCalls, outfile)
    else if ch = 'p' then optionLoop rest (usageCalls, outfile)
    else if ch = 'o' then optionLoop rest (usageCalls, some optarg)
    else optionLoop rest (usage usageCalls, outfile)

/-- The grid filled by lines 46–52: `rows * cols` values `random() % 10` in row-major
order, `random k` being the `k`-th value drawn after `srandom( SEED )`. -/
def buildGrid (random : Nat → Int) (rows cols : Int) : List Int :=
  (List.range (rows.toNat * cols.toNat)).map fun k => random k % 10

/-- The largest request `malloc` serves: glibc refuses a size above `PTRDIFF_MAX`
and returns the null pointer; a request within it is taken to be served. -/
def PTRDIFF_MAX : Nat := 9223372036854775807

/-- The byte count of `malloc( rows * cols * sizeof(int) )` (line 43): the `int`
product, converted to `size_t` and multiplied by four modulo `2 ^ 64`. -/
def dataBytes (rows cols : Int) : Nat := (toSizeT (wrapInt (rows * cols)) * 4) % 2 ^ 64

/-- Whether the fill loop of lines 47–52 stays inside the block obtained at line 43:
it writes `rows * cols` cells when both dimensions are positive and none otherwise;
writing through a null pointer or past the end of the block is a fault. -/
def fillFits (rows cols : Int) : Bool :=
  decide (rows ≤ 0) || decide (cols ≤ 0) ||
    (decide (dataBytes rows cols ≤ PTRDIFF_MAX) &&
      decide (rows.toNat * cols.toNat * 4 ≤ dataBytes rows cols))

/-- The constructor `Application(argc, argv)`, on the options returned by `getopt`
and on the positional arguments left after them (`argv + optind`).  The pointer
`cfg` (declared in `common.hpp`) is taken to be the application's own configuration,
so the dimensions parsed are those of the grid that is built.  Reading `argv[i]`
for `i ≥ argc` hands `atoi` the null pointer that ends `argv`, and a fill loop that
leaves its block faults: in both cases there is no configuration. -/
def Application (random : Nat → Int) (opts : List (Char × String)) (args : List String) :
    Startup :=
  let (usageCalls, outfile) := optionLoop opts (0, none)
  let usageCalls := if args.length < 3 then usage usageCalls else usageCalls
  match args.get? 0, args.get? 1, args.get? 2 with
  | some a0, some a1, some a2 =>
    let cols := atoi a0
    let rows := atoi a1
    let height := atoi a2
    if fillFits rows cols then
      { usageCalls := usageCalls, outfile := outfile,
        config := some { cols := cols, rows := rows, height := height,
                         data := buildGrid random rows cols } }
    else { usageCalls := usageCalls, outfile := outfile, config := none }
  | _, _, _ => { usageCalls := usageCalls, outfile := outfile, config := none }

/-- How the process ends. -/
inductive ExitStatus
  | success
  | failure
  | crashed
  | aborted
  | hung
  deriving DecidableEq

/-- The function `main`: construct the application, run it, and map the way the run
ends to the way the process ends (`EXIT_SUCCESS` on completion, `EXIT_FAILURE` on a
fatal engine error).  Returned with it is the number of usage messages printed. -/
def main (random : Nat → Int) (fuel : Nat) (cl : Engine)
    (opts : List (Char × String)) (args : List String) : Nat × ExitStatus :=
  let app := Application random opts args
  match app.config with
  | none => (app.usageCalls, ExitStatus.crashed)
  | some cfg =>
    match (run fuel cfg cl).1 with
    | Outcome.completed _ => (app.usageCalls, ExitStatus.success)
    | Outcome.failed => (app.usageCalls, ExitStatus.failure)
    | Outcome.aborted => (app.usageCalls, ExitStatus.aborted)
    | Outcome.unfinished => (app.usageCalls, ExitStatus.hung)

/-! ## Work-group sizing: proofs -/

theorem shrinkLoop_le (G n : Nat) : shrinkLoop G n ≤ n := by
  induction n with
  | zero => simp [shrinkLoop]
  | succ n ih =>
    unfold shrinkLoop
    split
    · exact Nat.le_succ_of_le ih
    · exact Nat.le_refl _

theorem shrinkLoop_pos (G n : Nat) (hn : 1 ≤ n) : 1 ≤ shrinkLoop G n := by
  induction n with
  | zero => omega
  | succ n ih =>
    unfold shrinkLoop
    split
    · rename_i h
      rcases Nat.eq_zero_or_pos n with h0 | h0
      · subst h0
        exact absurd (Nat.mod_one G) h
      · exact ih h0
    · omega

theorem shrinkLoop_dvd (G n : Nat) (hn : 1 ≤ n) : shrinkLoop G n ∣ G := by
  induction n with
  | zero => omega
  | succ n ih =>
    unfold shrinkLoop
    split
    · rename_i h
      rcases Nat.eq_zero_or_pos n with h0 | h0
      · subst h0
        exact absurd (Nat.mod_one G) h
      · exact ih h0
    · rename_i h
      exact Nat.dvd_of_mod_eq_zero (by simpa using h)

theorem shrinkLoop_greatest (G n d : Nat) (hd : d ∣ G) (hdn : d ≤ n) :
    d ≤ shrinkLoop G n := by
  induction n with
  | zero => omega
  | succ n ih =>
    unfold shrinkLoop
    split
    · rename_i h
      rcases Nat.lt_or_ge n d with hlt | hge
      · have hdeq : d = n + 1 := by omega
        subst hdeq
        exact absurd (Nat.mod_eq_zero_of_dvd hd) h
      · exact ih hge
    · exact hdn

/-- C2: for every global size `G > 0` and maximum work-group size `L > 0`, the local
size computed at the start of `run()` is positive, divides `G` evenly and is at most
`min L G`. -/
theorem localWorkSize_dvd_le (G L : Nat) (hG : 0 < G) (hL : 0 < L) :
    0 < localWorkSize G L ∧ G % localWorkSize G L = 0 ∧ localWorkSize G L ≤ min L G := by
  unfold localWorkSize
  split
  · rename_i h
    refine ⟨hG, Nat.mod_self G, ?_⟩
    exact le_min (Nat.le_of_lt h) (Nat.le_refl G)
  · rename_i h
    have hle : L ≤ G := Nat.le_of_not_gt h
    refine ⟨shrinkLoop_pos G L hL, Nat.mod_eq_zero_of_dvd (shrinkLoop_dvd G L hL), ?_⟩
    exact le_min (shrinkLoop_le G L) (Nat.le_trans (shrinkLoop_le G L) hle)

theorem localWorkSize_dvd_le_witness :
    0 < localWorkSize 15 4 ∧ 15 % localWorkSize 15 4 = 0 ∧ localWorkSize 15 4 ≤ min 4 15 :=
  localWorkSize_dvd_le 15 4 (by decide) (by decide)

/-- The local size for `G ≥ 1` and `L ≥ 1`: positive, at most `L`, a divisor of `G`,
and no smaller than any other divisor of `G` that is at most `L`. -/
theorem localWorkSize_bounds (G L : Nat) (hG : 1 ≤ G) (hL : 1 ≤ L) :
    (1 ≤ localWorkSize G L ∧ localWorkSize G L ≤ L ∧ localWorkSize G L ∣ G) ∧
    (∀ d, d ≤ L → d ∣ G → d ≤ localWorkSize G L) := by
  unfold localWorkSize
  split
  · rename_i h
    refine ⟨⟨hG, Nat.le_of_lt h, Nat.dvd_refl G⟩, ?_⟩
    intro d _ hd
    exact Nat.le_of_dvd hG hd
  · refine ⟨⟨shrinkLoop_pos G L hL, shrinkLoop_le G L, shrinkLoop_dvd G L hL⟩, ?_⟩
    intro d hdL hd
    exact shrinkLoop_greatest G L d hd hdL

/-- C10: for every `G ≥ 1` and `L ≥ 1` the shrinking loop stops at a positive value,
and the local size is the largest `d` with `1 ≤ d ≤ L` that divides `G`: it is such
a `d`, no admissible divisor of `G` is larger, and it is `G` itself when `L ≥ G`. -/
theorem localWorkSize_greatest (G L : Nat) (hG : 1 ≤ G) (hL : 1 ≤ L) :
    (1 ≤ localWorkSize G L ∧ localWorkSize G L ≤ L ∧ localWorkSize G L ∣ G) ∧
    (∀ d, 1 ≤ d → d ≤ L → d ∣ G → d ≤ localWorkSize G L) ∧
    (G ≤ L → localWorkSize G L = G) := by
  obtain ⟨hb, hmax⟩ := localWorkSize_bounds G L hG hL
  refine ⟨hb, fun d _ hdL hd => hmax d hdL hd, ?_⟩
  intro hGL
  exact Nat.le_antisymm (Nat.le_of_dvd hG hb.2.2) (hmax G hGL (Nat.dvd_refl G))

theorem localWorkSize_greatest_witness :
    (1 ≤ localWorkSize 12 8 ∧ localWorkSize 12 8 ≤ 8 ∧ localWorkSize 12 8 ∣ 12) ∧
    (∀ d, 1 ≤ d → d ≤ 8 → d ∣ 12 → d ≤ localWorkSize 12 8) ∧
    (12 ≤ 8 → localWorkSize 12 8 = 12) :=
  localWorkSize_greatest 12 8 (by decide) (by decide)

/-- C9, as stated, fails: with `rows = 2`, `cols = 3` and `L = 2` no `k` with
`2 ≤ k ≤ L` divides `cols`, yet the local size is `2`, because the loop tests the
global size `rows * cols = 6`. -/
theorem localWorkSize_cols_counterexample :
    (∀ k : Nat, 2 ≤ k → k ≤ 2 → ¬ ((k : Int) ∣ (3 : Int))) ∧
    localWorkSize (toSizeT (wrapInt (2 * 3))) 2 = 2 ∧
    (run 1 { cols := 3, rows := 2, height := 1, data := [0, 0, 0, 1, 1, 1] }
      (Engine.fresh 2 (fun _ => false))).2.dispatched.map (fun d => d.lwsize) = [2] := by
  refine ⟨?_, by decide, by decide⟩
  intro k h2 hk
  have hk2 : k = 2 := by omega
  subst hk2
  decide

theorem wrapInt_eq (x : Int) (h0 : -2147483648 ≤ x) (h1 : x ≤ 2147483647) :
    wrapInt x = x := by
  unfold wrapInt
  omega

/-- The global size of line 73 for a grid whose cell count fits an `int`. -/
theorem gwsize_of_fit (rows cols : Int) (hr : 1 ≤ rows) (hc : 1 ≤ cols)
    (hfit : rows * cols ≤ INT_MAX) :
    ((toSizeT (wrapInt (rows * cols)) : Nat) : Int) = rows * cols := by
  have hpos : 1 ≤ rows * cols := by nlinarith
  unfold INT_MAX at hfit
  rw [wrapInt_eq _ (by omega) hfit]
  unfold toSizeT
  rw [Int.emod_eq_of_lt (by omega) (by omega)]
  exact Int.toNat_of_nonneg (by omega)

/-- What line 73 does to a grid whose cell count does not fit an `int`: for
`rows = cols = 65537` the product wraps to `131073`, so that the wall buffer is
created with `65536` entries and the local size for `L = 4` is `3`, although no `k`
in `[2, 4]` divides `65537 * 65537`. -/
theorem gwsize_wraps_example :
    toSizeT (wrapInt (65537 * 65537)) = 131073 ∧
    toSizeT (↑(toSizeT (wrapInt (65537 * 65537))) - 65537) = 65536 ∧
    localWorkSize (toSizeT (wrapInt (65537 * 65537))) 4 = 3 ∧
    (65537 * 65537 : Int) % 2 = 1 ∧ (65537 * 65537 : Int) % 3 = 1 := by
  decide

/-- C9, amended: for `rows ≥ 1`, `cols ≥ 1` whose product fits an `int` and `L ≥ 1`,
if the global size `rows * cols` is not divisible by any `k` with `2 ≤ k ≤ L`, the
local size computed by `run()` is `1`. -/
theorem localWorkSize_eq_one (rows cols : Int) (L : Nat) (hr : 1 ≤ rows) (hc : 1 ≤ cols)
    (hfit : rows * cols ≤ INT_MAX) (hL : 1 ≤ L)
    (hnd : ∀ k : Nat, 2 ≤ k → k ≤ L → ¬ ((k : Int) ∣ rows * cols)) :
    localWorkSize (toSizeT (wrapInt (rows * cols))) L = 1 := by
  have hpos : 1 ≤ rows * cols := by nlinarith
  have hG := gwsize_of_fit rows cols hr hc hfit
  have hG1 : 1 ≤ toSizeT (wrapInt (rows * cols)) := by omega
  obtain ⟨⟨h1, h2, h3⟩, _⟩ :=
    localWorkSize_bounds (toSizeT (wrapInt (rows * cols))) L hG1 hL
  by_contra hne
  have hdvd : ((localWorkSize (toSizeT (wrapInt (rows * cols))) L : Nat) : Int) ∣
      ((toSizeT (wrapInt (rows * cols)) : Nat) : Int) := Int.natCast_dvd_natCast.mpr h3
  rw [hG] at hdvd
  exact hnd (localWorkSize (toSizeT (wrapInt (rows * cols))) L) (by omega) h2 hdvd

theorem localWorkSize_eq_one_witness : localWorkSize (toSizeT (wrapInt (5 * 7))) 4 = 1 :=
  localWorkSize_eq_one 5 7 4 (by decide) (by decide) (by decide) (by decide)
    (fun k h2 hk => by
      have h : k = 2 ∨ k = 3 ∨ k = 4 := by omega
      rcases h with h | h | h <;> subst h <;> decide)

/-! ## The engine calls: what they leave unchanged -/

theorem setKernelArg_fields (cl : Engine) (i : Nat) (v : KernelArg) :
    (cl.setKernelArg i v).2.failAt = cl.failAt ∧
    (cl.setKernelArg i v).2.maxWorkGroupSize = cl.maxWorkGroupSize ∧
    (cl.setKernelArg i v).2.nextHandle = cl.nextHandle ∧
    (cl.setKernelArg i v).2.mem = cl.mem ∧
    (cl.setKernelArg i v).2.allocated = cl.allocated ∧
    (cl.setKernelArg i v).2.released = cl.released ∧
    (cl.setKernelArg i v).2.dispatched = cl.dispatched ∧
    (cl.setKernelArg i v).2.reads = cl.reads := by
  unfold Engine.setKernelArg
  split <;> simp

theorem setKernelArgs_fields (l : List (Nat × KernelArg)) (cl : Engine) :
    (cl.setKernelArgs l).2.failAt = cl.failAt ∧
    (cl.setKernelArgs l).2.maxWorkGroupSize = cl.maxWorkGroupSize ∧
    (cl.setKernelArgs l).2.nextHandle = cl.nextHandle ∧
    (cl.setKernelArgs l).2.mem = cl.mem ∧
    (cl.setKernelArgs l).2.allocated = cl.allocated ∧
    (cl.setKernelArgs l).2.released = cl.released ∧
    (cl.setKernelArgs l).2.dispatched = cl.dispatched ∧
    (cl.setKernelArgs l).2.reads = cl.reads := by
  induction l generalizing cl with
  | nil => simp [Engine.setKernelArgs]
  | cons p rest ih =>
    obtain ⟨i, v⟩ := p
    have h1 := setKernelArg_fields cl i v
    unfold Engine.setKernelArgs
    generalize cl.setKernelArg i v = q at h1
    obtain ⟨b, c⟩ := q
    cases b
    · simpa using h1
    · have h2 := ih c
      simp only at h1 ⊢
      obtain ⟨a1, a2, a3, a4, a5, a6, a7, a8⟩ := h1
      obtain ⟨b1, b2, b3, b4, b5, b6, b7, b8⟩ := h2
      exact ⟨b1.trans a1, b2.trans a2, b3.trans a3, b4.trans a4, b5.trans a5, b6.trans a6,
        b7.trans a7, b8.trans a8⟩

/-- The argument table after a list of bindings that all succeed. -/
theorem setKernelArgs_args (l : List (Nat × KernelArg)) (cl : Engine)
    (hok : (cl.setKernelArgs l).1 = true) :
    (cl.setKernelArgs l).2.args =
      l.foldl (fun a p => fun j => if j = p.1 then p.2 else a j) cl.args := by
  induction l generalizing cl with
  | nil => simp [Engine.setKernelArgs]
  | cons p rest ih =>
    obtain ⟨i, v⟩ := p
    unfold Engine.setKernelArgs at hok ⊢
    have h1 : (cl.setKernelArg i v).1 = true →
        (cl.setKernelArg i v).2.args = fun j => if j = i then v else cl.args j := by
      unfold Engine.setKernelArg
      split <;> simp
    generalize cl.setKernelArg i v = q at h1 hok
    obtain ⟨b, c⟩ := q
    cases b
    · simp at hok
    · simp only at hok ⊢
      rw [ih c hok, List.foldl_cons, h1 rfl]

theorem setKernelArgs_reliable (l : List (Nat × KernelArg)) (cl : Engine)
    (hrel : cl.Reliable) : (cl.setKernelArgs l).1 = true := by
  induction l generalizing cl with
  | nil => simp [Engine.setKernelArgs]
  | cons p rest ih =>
    obtain ⟨i, v⟩ := p
    unfold Engine.setKernelArgs
    have h1 : cl.setKernelArg i v = (true, (cl.setKernelArg i v).2) := by
      unfold Engine.setKernelArg
      simp [hrel cl.calls]
    have h2 : (cl.setKernelArg i v).2.Reliable := by
      intro k
      rw [(setKernelArg_fields cl i v).1]
      exact hrel k
    rw [h1]
    exact ih _ h2

theorem enqueueNDRangeKernel_fields (cl : Engine) (g l : Nat) :
    (cl.enqueueNDRangeKernel g l).2.failAt = cl.failAt ∧
    (cl.enqueueNDRangeKernel g l).2.maxWorkGroupSize = cl.maxWorkGroupSize ∧
    (cl.enqueueNDRangeKernel g l).2.nextHandle = cl.nextHandle ∧
    (cl.enqueueNDRangeKernel g l).2.allocated = cl.allocated ∧
    (cl.enqueueNDRangeKernel g l).2.released = cl.released ∧
    (cl.enqueueNDRangeKernel g l).2.reads = cl.reads := by
  unfold Engine.enqueueNDRangeKernel
  split <;> simp

theorem createBuffer_fields (cl : Engine) (n : Nat) (init : Option (List Int)) :
    (cl.createBuffer n init).2.failAt = cl.failAt ∧
    (cl.createBuffer n init).2.maxWorkGroupSize = cl.maxWorkGroupSize ∧
    (cl.createBuffer n init).2.released = cl.released ∧
    (cl.createBuffer n init).2.dispatched = cl.dispatched ∧
    (cl.createBuffer n init).2.reads = cl.reads := by
  unfold Engine.createBuffer
  split <;> simp

/-! ## One pass through the loop body -/

/-- The arguments seen by the dispatch once the eleven bindings have succeeded. -/
theorem chunkArgs_bound (cfg : Config) (lw wall r0 r1 : Nat) (h src : Int) (cl : Engine)
    (hok : (cl.setKernelArgs (chunkArgs cfg lw wall r0 r1 h src)).1 = true) :
    let cl1 := (cl.setKernelArgs (chunkArgs cfg lw wall r0 r1 h src)).2
    cl1.args 0 = KernelArg.int (min cfg.height (wrapInt (wrapInt (cfg.rows - h) - 1))) ∧
    cl1.args 1 = KernelArg.mem wall ∧
    cl1.args 2 = KernelArg.mem (resultD r0 r1 src) ∧
    cl1.args 3 = KernelArg.mem (resultD r0 r1 (1 - src)) ∧
    cl1.args 4 = KernelArg.int cfg.cols ∧
    cl1.args 6 = KernelArg.int h := by
  intro cl1
  have hargs := setKernelArgs_args _ cl hok
  simp only [cl1, hargs]
  simp [chunkArgs]

/-- A successful dispatch appends one log entry, made of the bound arguments, and
writes the kernel output to the destination buffer. -/
theorem enqueueNDRangeKernel_ok (cl : Engine) (g l : Nat)
    (hok : (cl.enqueueNDRangeKernel g l).1 = true) :
    (cl.enqueueNDRangeKernel g l).2.dispatched = cl.dispatched ++
      [{ iteration := (cl.args 0).asInt, height := (cl.args 6).asInt,
         src := (cl.args 2).asMem, dst := (cl.args 3).asMem, gwsize := g, lwsize := l }] ∧
    (cl.enqueueNDRangeKernel g l).2.mem = (fun x =>
      if x = (cl.args 3).asMem then
        sweepKernel (cl.mem (cl.args 1).asMem) (cl.args 4).asInt.toNat
          (cl.args 0).asInt.toNat (cl.args 6).asInt.toNat (cl.mem (cl.args 2).asMem)
      else cl.mem x) := by
  unfold Engine.enqueueNDRangeKernel at hok ⊢
  split
  · rename_i hf
    simp [hf] at hok
  · simp

theorem enqueueNDRangeKernel_failed (cl : Engine) (g l : Nat)
    (hok : (cl.enqueueNDRangeKernel g l).1 = false) :
    (cl.enqueueNDRangeKernel g l).2.dispatched = cl.dispatched := by
  unfold Engine.enqueueNDRangeKernel at hok ⊢
  split
  · simp
  · rename_i hf
    simp [hf] at hok

theorem enqueueNDRangeKernel_reliable (cl : Engine) (g l : Nat) (hrel : cl.Reliable) :
    (cl.enqueueNDRangeKernel g l).1 = true := by
  unfold Engine.enqueueNDRangeKernel
  simp [hrel cl.calls]

/-! ## The chunk loop, one iteration at a time -/

theorem chunkLoop_exit (cfg : Config) (gw lw wall r0 r1 fuel : Nat) (h src : Int)
    (cl : Engine) (hge : ¬ h < wrapInt (cfg.rows - 1)) :
    chunkLoop cfg gw lw wall r0 r1 fuel h src cl = (LoopExit.done src, cl) := by
  cases fuel <;> simp [chunkLoop, hge]

theorem chunkLoop_succ (cfg : Config) (gw lw wall r0 r1 fuel : Nat) (h src : Int)
    (cl : Engine) (hlt : h < wrapInt (cfg.rows - 1)) :
    chunkLoop cfg gw lw wall r0 r1 (fuel + 1) h src cl =
      if (cl.setKernelArgs (chunkArgs cfg lw wall r0 r1 h src)).1 = true then
        if ((cl.setKernelArgs (chunkArgs cfg lw wall r0 r1 h src)).2.enqueueNDRangeKernel
            gw lw).1 = true then
          chunkLoop cfg gw lw wall r0 r1 fuel (wrapInt (h + cfg.height)) (1 - src)
            ((cl.setKernelArgs (chunkArgs cfg lw wall r0 r1 h src)).2.enqueueNDRangeKernel
              gw lw).2
        else
          (LoopExit.failed,
            ((cl.setKernelArgs (chunkArgs cfg lw wall r0 r1 h src)).2.enqueueNDRangeKernel
              gw lw).2)
      else (LoopExit.failed, (cl.setKernelArgs (chunkArgs cfg lw wall r0 r1 h src)).2) := by
  rw [chunkLoop]
  simp only [hlt, if_true]
  generalize cl.setKernelArgs (chunkArgs cfg lw wall r0 r1 h src) = q
  obtain ⟨b, c⟩ := q
  cases b
  · simp
  · simp only [if_true]
    generalize c.enqueueNDRangeKernel gw lw = q2
    obtain ⟨b2, c2⟩ := q2
    cases b2 <;> simp

/-- The chunk loop allocates and releases nothing, reads nothing, and leaves the
engine's fixed behaviour alone, however it ends. -/
theorem chunkLoop_fields (cfg : Config) (gw lw wall r0 r1 : Nat) (fuel : Nat) :
    ∀ (h src : Int) (cl : Engine),
      (chunkLoop cfg gw lw wall r0 r1 fuel h src cl).2.failAt = cl.failAt ∧
      (chunkLoop cfg gw lw wall r0 r1 fuel h src cl).2.allocated = cl.allocated ∧
      (chunkLoop cfg gw lw wall r0 r1 fuel h src cl).2.released = cl.released ∧
      (chunkLoop cfg gw lw wall r0 r1 fuel h src cl).2.reads = cl.reads := by
  induction fuel with
  | zero =>
    intro h src cl
    simp only [chunkLoop]
    split <;> simp
  | succ fuel ih =>
    intro h src cl
    by_cases hlt : h < wrapInt (cfg.rows - 1)
    · rw [chunkLoop_succ cfg gw lw wall r0 r1 fuel h src cl hlt]
      have hb := setKernelArgs_fields (chunkArgs cfg lw wall r0 r1 h src) cl
      have hd := enqueueNDRangeKernel_fields
        (cl.setKernelArgs (chunkArgs cfg lw wall r0 r1 h src)).2 gw lw
      split
      · split
        · have := ih (wrapInt (h + cfg.height)) (1 - src)
            ((cl.setKernelArgs (chunkArgs cfg lw wall r0 r1 h src)).2.enqueueNDRangeKernel
              gw lw).2
          obtain ⟨i1, i2, i3, i4⟩ := this
          refine ⟨?_, ?_, ?_, ?_⟩
          · rw [i1, hd.1, hb.1]
          · rw [i2, hd.2.2.2.1, hb.2.2.2.2.1]
          · rw [i3, hd.2.2.2.2.1, hb.2.2.2.2.2.1]
          · rw [i4, hd.2.2.2.2.2, hb.2.2.2.2.2.2.2]
        · refine ⟨?_, ?_, ?_, ?_⟩
          · rw [hd.1, hb.1]
          · rw [hd.2.2.2.1, hb.2.2.2.2.1]
          · rw [hd.2.2.2.2.1, hb.2.2.2.2.2.1]
          · rw [hd.2.2.2.2.2, hb.2.2.2.2.2.2.2]
      · exact ⟨hb.1, hb.2.2.2.2.1, hb.2.2.2.2.2.1, hb.2.2.2.2.2.2.2⟩
    · rw [chunkLoop_exit cfg gw lw wall r0 r1 (fuel + 1) h src cl hlt]
      simp

/-! ## Buffers: allocation and release over a whole run -/

theorem createBuffer_cases (cl : Engine) (n : Nat) (init : Option (List Int)) :
    (cl.createBuffer n init).1 = none ∧
      (cl.createBuffer n init).2.allocated = cl.allocated ∧
      (cl.createBuffer n init).2.nextHandle = cl.nextHandle ∨
    (cl.createBuffer n init).1 = some cl.nextHandle ∧
      (cl.createBuffer n init).2.allocated = cl.allocated ++ [cl.nextHandle] ∧
      (cl.createBuffer n init).2.nextHandle = cl.nextHandle + 1 := by
  unfold Engine.createBuffer
  split <;> simp

theorem enqueueReadBuffer_fields (cl : Engine) (h n : Nat) :
    (cl.enqueueReadBuffer h n).2.failAt = cl.failAt ∧
    (cl.enqueueReadBuffer h n).2.allocated = cl.allocated ∧
    (cl.enqueueReadBuffer h n).2.released = cl.released ∧
    (cl.enqueueReadBuffer h n).2.dispatched = cl.dispatched := by
  unfold Engine.enqueueReadBuffer
  split <;> simp

/-- The allocation and release logs after a run, from any engine state: a completed
run has allocated three fresh handles and released exactly those; any other run has
released nothing, and has allocated at most three fresh handles. -/
theorem run_logs (fuel : Nat) (cfg : Config) (cl : Engine) :
    ((∃ res, (run fuel cfg cl).1 = Outcome.completed res) ∧
      (run fuel cfg cl).2.allocated =
        cl.allocated ++ [cl.nextHandle, cl.nextHandle + 1, cl.nextHandle + 2] ∧
      (run fuel cfg cl).2.released =
        cl.released ++ [cl.nextHandle, cl.nextHandle + 1, cl.nextHandle + 2]) ∨
    ((∀ res, (run fuel cfg cl).1 ≠ Outcome.completed res) ∧
      (run fuel cfg cl).2.released = cl.released ∧
      ∃ k, k ≤ 3 ∧ (run fuel cfg cl).2.allocated = cl.allocated ++ List.range' cl.nextHandle k) := by
  unfold run
  by_cases hL : cl.getWorkGroupSize 0 = 0
  · right
    simp only [hL, if_true]
    exact ⟨(fun _ h => by cases h), trivial, 0, by omega, by simp⟩
  · simp only [hL, if_false]
    have c1 := createBuffer_cases cl (toSizeT (↑(toSizeT (wrapInt (cfg.rows * cfg.cols))) - cfg.cols))
      (some (cfg.data.drop cfg.cols.toNat))
    have f1 := createBuffer_fields cl (toSizeT (↑(toSizeT (wrapInt (cfg.rows * cfg.cols))) - cfg.cols))
      (some (cfg.data.drop cfg.cols.toNat))
    generalize cl.createBuffer (toSizeT (↑(toSizeT (wrapInt (cfg.rows * cfg.cols))) - cfg.cols))
      (some (cfg.data.drop cfg.cols.toNat)) = q1 at c1 f1
    obtain ⟨o1, cl1⟩ := q1
    simp only at c1 f1
    rcases c1 with ⟨e1, a1, n1⟩ | ⟨e1, a1, n1⟩
    · subst e1
      right
      exact ⟨(fun _ h => by cases h), f1.2.2.1, 0, by omega, by simpa using a1⟩
    · subst e1
      simp only
      have c2 := createBuffer_cases cl1 (toSizeT cfg.cols) (some cfg.data)
      have f2 := createBuffer_fields cl1 (toSizeT cfg.cols) (some cfg.data)
      generalize cl1.createBuffer (toSizeT cfg.cols) (some cfg.data) = q2 at c2 f2
      obtain ⟨o2, cl2⟩ := q2
      simp only at c2 f2
      rcases c2 with ⟨e2, a2, n2⟩ | ⟨e2, a2, n2⟩
      · subst e2
        right
        refine ⟨(fun _ h => by cases h), f2.2.2.1.trans f1.2.2.1, 1, by omega, ?_⟩
        simp [a2, a1]
      · subst e2
        simp only
        have c3 := createBuffer_cases cl2 (toSizeT cfg.cols) none
        have f3 := createBuffer_fields cl2 (toSizeT cfg.cols) none
        generalize cl2.createBuffer (toSizeT cfg.cols) none = q3 at c3 f3
        obtain ⟨o3, cl3⟩ := q3
        simp only at c3 f3
        rcases c3 with ⟨e3, a3, n3⟩ | ⟨e3, a3, n3⟩
        · subst e3
          right
          refine ⟨(fun _ h => by cases h), f3.2.2.1.trans (f2.2.2.1.trans f1.2.2.1), 2, by omega, ?_⟩
          simp [a3, a2, a1, n1, List.range'_succ]
        · subst e3
          simp only
          have hall : cl3.allocated =
              cl.allocated ++ [cl.nextHandle, cl.nextHandle + 1, cl.nextHandle + 2] := by
            simp [a3, a2, a1, n1, n2]
          have hrel : cl3.released = cl.released := f3.2.2.1.trans (f2.2.2.1.trans f1.2.2.1)
          have fl := chunkLoop_fields cfg (toSizeT (wrapInt (cfg.rows * cfg.cols)))
            (localWorkSize (toSizeT (wrapInt (cfg.rows * cfg.cols))) (cl.getWorkGroupSize 0))
            cl.nextHandle cl1.nextHandle cl2.nextHandle fuel 0 0 cl3
          generalize chunkLoop cfg (toSizeT (wrapInt (cfg.rows * cfg.cols)))
            (localWorkSize (toSizeT (wrapInt (cfg.rows * cfg.cols))) (cl.getWorkGroupSize 0))
            cl.nextHandle cl1.nextHandle cl2.nextHandle fuel 0 0 cl3 = q4 at fl
          obtain ⟨ex, cl4⟩ := q4
          simp only at fl
          have hnot : cl4.released = cl.released ∧
              ∃ k, k ≤ 3 ∧ cl4.allocated = cl.allocated ++ List.range' cl.nextHandle k :=
            ⟨fl.2.2.1.trans hrel, 3, by omega, by
              rw [fl.2.1, hall]; simp [List.range'_succ]⟩
          cases ex with
          | failed => right; exact ⟨(fun _ h => by cases h), hnot.1, hnot.2⟩
          | unfinished => right; exact ⟨(fun _ h => by cases h), hnot.1, hnot.2⟩
          | done src =>
            simp only
            have fr := enqueueReadBuffer_fields cl4 (resultD cl1.nextHandle cl2.nextHandle src)
              (toSizeT cfg.cols)
            generalize cl4.enqueueReadBuffer (resultD cl1.nextHandle cl2.nextHandle src)
              (toSizeT cfg.cols) = q5 at fr
            obtain ⟨o5, cl5⟩ := q5
            simp only at fr
            cases o5 with
            | none =>
              right
              refine ⟨(fun _ h => by cases h), fr.2.2.1.trans hnot.1, ?_⟩
              obtain ⟨k, hk, hk2⟩ := hnot.2
              exact ⟨k, hk, fr.2.1.trans hk2⟩
            | some result =>
              left
              refine ⟨⟨result, rfl⟩, ?_, ?_⟩
              · simp only [Engine.releaseMemObject]
                rw [fr.2.1, fl.2.1, hall]
              · simp only [Engine.releaseMemObject]
                rw [fr.2.2.1, fl.2.2.1, hrel, n1, n2, n1]
                simp

/-- C6, as stated, fails: on the example grid, against an engine whose first
dispatch fails (its fifteenth fallible call, after three allocations and eleven
bindings), `run()` stops with three buffers allocated and none released. -/
theorem run_leaks_on_failure :
    (run 10 (exampleGrid 1) (Engine.fresh 256 (fun k => k == 14))).1 = Outcome.failed ∧
    (run 10 (exampleGrid 1) (Engine.fresh 256 (fun k => k == 14))).2.allocated = [0, 1, 2] ∧
    (run 10 (exampleGrid 1) (Engine.fresh 256 (fun k => k == 14))).2.released = [] := by
  decide

/-- C6, amended: on every exit path of `run()`, against an engine whose calls may
fail at will, no handle is released twice and every released handle was allocated;
a run that completes has allocated three buffers and released exactly those, once
each; a run that ends in any other way has released nothing. -/
theorem run_release_discipline (fuel : Nat) (cfg : Config) (L : Nat) (failAt : Nat → Bool) :
    (run fuel cfg (Engine.fresh L failAt)).2.released.Nodup ∧
    (∀ h ∈ (run fuel cfg (Engine.fresh L failAt)).2.released,
      h ∈ (run fuel cfg (Engine.fresh L failAt)).2.allocated) ∧
    (∀ res, (run fuel cfg (Engine.fresh L failAt)).1 = Outcome.completed res →
      (run fuel cfg (Engine.fresh L failAt)).2.allocated.length = 3 ∧
      (run fuel cfg (Engine.fresh L failAt)).2.released =
        (run fuel cfg (Engine.fresh L failAt)).2.allocated) ∧
    ((∀ res, (run fuel cfg (Engine.fresh L failAt)).1 ≠ Outcome.completed res) →
      (run fuel cfg (Engine.fresh L failAt)).2.released = []) := by
  rcases run_logs fuel cfg (Engine.fresh L failAt) with ⟨⟨res, hres⟩, ha, hr⟩ | ⟨hne, hr, _⟩
  · have ha2 : (run fuel cfg (Engine.fresh L failAt)).2.allocated = [0, 1, 2] := by
      rw [ha]; simp [Engine.fresh]
    have hr2 : (run fuel cfg (Engine.fresh L failAt)).2.released = [0, 1, 2] := by
      rw [hr]; simp [Engine.fresh]
    rw [ha2, hr2]
    refine ⟨by decide, fun h hh => hh, fun _ _ => ⟨rfl, rfl⟩, ?_⟩
    intro hall
    exact absurd hres (hall res)
  · have hr2 : (run fuel cfg (Engine.fresh L failAt)).2.released = [] := by
      rw [hr]; simp [Engine.fresh]
    rw [hr2]
    refine ⟨List.nodup_nil, ?_, ?_, fun _ => rfl⟩
    · intro h hh
      cases hh
    · intro res hres
      exact absurd hres (hne res)

theorem abort_on_zero_size (fuel : Nat) (cfg : Config) (cl : Engine)
    (h : cl.maxWorkGroupSize = 0) : run fuel cfg cl = (Outcome.aborted, cl) := by
  unfold run
  simp [Engine.getWorkGroupSize, h]

/-- C7: `run()` aborts exactly when the engine reports a maximum work-group size of
zero, and an aborted run has made no engine call at all: the engine is left as it was
found (nothing allocated, bound, dispatched or read) and no result is produced. -/
theorem run_aborts_iff (fuel : Nat) (cfg : Config) (cl : Engine) :
    ((run fuel cfg cl).1 = Outcome.aborted ↔ cl.maxWorkGroupSize = 0) ∧
    (cl.maxWorkGroupSize = 0 → run fuel cfg cl = (Outcome.aborted, cl)) := by
  have hzero : cl.maxWorkGroupSize = 0 → run fuel cfg cl = (Outcome.aborted, cl) :=
    abort_on_zero_size fuel cfg cl
  refine ⟨⟨?_, fun h => by rw [hzero h]⟩, hzero⟩
  intro hab
  by_contra hL
  unfold run at hab
  simp only [Engine.getWorkGroupSize, hL, if_false] at hab
  repeat' split at hab
  all_goals simp at hab

theorem run_aborts_iff_witness :
    run 10 (exampleGrid 2) (Engine.fresh 0 (fun _ => false)) =
        (Outcome.aborted, Engine.fresh 0 (fun _ => false)) ∧
    ((run 10 (exampleGrid 2) (Engine.fresh 4 (fun _ => false))).1 = Outcome.aborted ↔
      (Engine.fresh 4 (fun _ => false)).maxWorkGroupSize = 0) :=
  ⟨(run_aborts_iff 10 (exampleGrid 2) (Engine.fresh 0 (fun _ => false))).2 rfl,
    (run_aborts_iff 10 (exampleGrid 2) (Engine.fresh 4 (fun _ => false))).1⟩

/-! ## The ping-pong discipline -/

/-- Invariant of the chunk loop, whatever the engine does: the `i`-th dispatch reads
`result_d[i % 2]` and writes `result_d[(i + 1) % 2]`, and the current `src` is the
number of dispatches so far, modulo two. -/
theorem chunkLoop_pingpong (cfg : Config) (gw lw wall r0 r1 : Nat) (fuel : Nat) :
    ∀ (h src : Int) (cl : Engine),
      cl.dispatched.map (fun d => (d.src, d.dst)) =
        (List.range cl.dispatched.length).map
          (fun (i : Nat) => (resultD r0 r1 ((i : Int) % 2), resultD r0 r1 (((i : Int) + 1) % 2))) →
      src = (cl.dispatched.length : Int) % 2 →
      ((chunkLoop cfg gw lw wall r0 r1 fuel h src cl).2.dispatched.map
          (fun d => (d.src, d.dst)) =
        (List.range (chunkLoop cfg gw lw wall r0 r1 fuel h src cl).2.dispatched.length).map
          (fun (i : Nat) => (resultD r0 r1 ((i : Int) % 2), resultD r0 r1 (((i : Int) + 1) % 2)))) ∧
      (∀ s, (chunkLoop cfg gw lw wall r0 r1 fuel h src cl).1 = LoopExit.done s →
        s = ((chunkLoop cfg gw lw wall r0 r1 fuel h src cl).2.dispatched.length : Int) % 2) := by
  induction fuel with
  | zero =>
    intro h src cl hpp hsrc
    simp only [chunkLoop]
    split
    · exact ⟨hpp, fun s hs => by cases hs⟩
    · refine ⟨hpp, fun s hs => ?_⟩
      simp only [LoopExit.done.injEq] at hs
      rw [← hs]; exact hsrc
  | succ fuel ih =>
    intro h src cl hpp hsrc
    by_cases hlt : h < wrapInt (cfg.rows - 1)
    · rw [chunkLoop_succ cfg gw lw wall r0 r1 fuel h src cl hlt]
      have hb := setKernelArgs_fields (chunkArgs cfg lw wall r0 r1 h src) cl
      split
      · rename_i hok
        have hargs := chunkArgs_bound cfg lw wall r0 r1 h src cl hok
        simp only at hargs
        split
        · rename_i hok2
          have hd := (enqueueNDRangeKernel_ok _ gw lw hok2).1
          rw [hargs.1, hargs.2.2.1, hargs.2.2.2.1, hargs.2.2.2.2.2, hb.2.2.2.2.2.2.1] at hd
          simp only [KernelArg.asInt, KernelArg.asMem] at hd
          apply ih
          · rw [hd]
            simp only [List.map_append, List.length_append, List.length_singleton,
              List.range_succ, List.map_cons, List.map_nil]
            rw [hpp, hsrc]
            have hpar : (1 : Int) - (cl.dispatched.length : Int) % 2 =
                ((cl.dispatched.length : Int) + 1) % 2 := by omega
            rw [hpar]
          · rw [hd]
            simp only [List.length_append, List.length_singleton]
            rw [hsrc]
            push_cast
            omega
        · rename_i hok2
          have hd := enqueueNDRangeKernel_failed _ gw lw (by simpa using hok2)
          rw [hd, hb.2.2.2.2.2.2.1]
          exact ⟨hpp, fun s hs => by cases hs⟩
      · rw [hb.2.2.2.2.2.2.1]
        exact ⟨hpp, fun s hs => by cases hs⟩
    · rw [chunkLoop_exit cfg gw lw wall r0 r1 (fuel + 1) h src cl hlt]
      refine ⟨hpp, fun s hs => ?_⟩
      simp only [LoopExit.done.injEq] at hs
      rw [← hs]; exact hsrc

/-- The shape of a run on an engine with a non-zero work-group size: either one of
the three allocations fails, or the run is the chunk loop on the engine `cl3` left by
the allocations, followed by the read-back and the three releases. -/
theorem run_after_alloc (fuel : Nat) (cfg : Config) (cl : Engine)
    (hL : cl.maxWorkGroupSize ≠ 0) :
    ((run fuel cfg cl).1 = Outcome.failed ∧ (run fuel cfg cl).2.dispatched = cl.dispatched ∧
      (run fuel cfg cl).2.reads = cl.reads) ∨
    ∃ cl3 : Engine, cl3.dispatched = cl.dispatched ∧ cl3.reads = cl.reads ∧
      cl3.failAt = cl.failAt ∧
      run fuel cfg cl =
        (match chunkLoop cfg (toSizeT (wrapInt (cfg.rows * cfg.cols)))
            (localWorkSize (toSizeT (wrapInt (cfg.rows * cfg.cols))) cl.maxWorkGroupSize)
            cl.nextHandle (cl.nextHandle + 1) (cl.nextHandle + 2) fuel 0 0 cl3 with
        | (LoopExit.failed, cl4) => (Outcome.failed, cl4)
        | (LoopExit.unfinished, cl4) => (Outcome.unfinished, cl4)
        | (LoopExit.done src, cl4) =>
          match cl4.enqueueReadBuffer (resultD (cl.nextHandle + 1) (cl.nextHandle + 2) src)
              (toSizeT cfg.cols) with
          | (none, cl5) => (Outcome.failed, cl5)
          | (some result, cl5) =>
            (Outcome.completed result,
              ((cl5.releaseMemObject cl.nextHandle).releaseMemObject
                (cl.nextHandle + 1)).releaseMemObject (cl.nextHandle + 2))) := by
  unfold run
  simp only [Engine.getWorkGroupSize, hL, if_false]
  have c1 := createBuffer_cases cl (toSizeT (↑(toSizeT (wrapInt (cfg.rows * cfg.cols))) - cfg.cols))
    (some (cfg.data.drop cfg.cols.toNat))
  have f1 := createBuffer_fields cl (toSizeT (↑(toSizeT (wrapInt (cfg.rows * cfg.cols))) - cfg.cols))
    (some (cfg.data.drop cfg.cols.toNat))
  generalize cl.createBuffer (toSizeT (↑(toSizeT (wrapInt (cfg.rows * cfg.cols))) - cfg.cols))
    (some (cfg.data.drop cfg.cols.toNat)) = q1 at c1 f1
  obtain ⟨o1, cl1⟩ := q1
  simp only at c1 f1
  rcases c1 with ⟨e1, _, n1⟩ | ⟨e1, _, n1⟩
  · subst e1
    left
    exact ⟨rfl, f1.2.2.2.1, f1.2.2.2.2⟩
  · subst e1
    simp only
    have c2 := createBuffer_cases cl1 (toSizeT cfg.cols) (some cfg.data)
    have f2 := createBuffer_fields cl1 (toSizeT cfg.cols) (some cfg.data)
    generalize cl1.createBuffer (toSizeT cfg.cols) (some cfg.data) = q2 at c2 f2
    obtain ⟨o2, cl2⟩ := q2
    simp only at c2 f2
    rcases c2 with ⟨e2, _, n2⟩ | ⟨e2, _, n2⟩
    · subst e2
      left
      exact ⟨rfl, f2.2.2.2.1.trans f1.2.2.2.1, f2.2.2.2.2.trans f1.2.2.2.2⟩
    · subst e2
      simp only
      have c3 := createBuffer_cases cl2 (toSizeT cfg.cols) none
      have f3 := createBuffer_fields cl2 (toSizeT cfg.cols) none
      generalize cl2.createBuffer (toSizeT cfg.cols) none = q3 at c3 f3
      obtain ⟨o3, cl3⟩ := q3
      simp only at c3 f3
      rcases c3 with ⟨e3, _, n3⟩ | ⟨e3, _, n3⟩
      · subst e3
        left
        exact ⟨rfl, f3.2.2.2.1.trans (f2.2.2.2.1.trans f1.2.2.2.1),
          f3.2.2.2.2.trans (f2.2.2.2.2.trans f1.2.2.2.2)⟩
      · subst e3
        right
        refine ⟨cl3, f3.2.2.2.1.trans (f2.2.2.2.1.trans f1.2.2.2.1),
          f3.2.2.2.2.trans (f2.2.2.2.2.trans f1.2.2.2.2),
          f3.1.trans (f2.1.trans f1.1), ?_⟩
        simp only [n1, n2]

theorem enqueueReadBuffer_ok (cl : Engine) (h n : Nat) (res : List Int) (c : Engine)
    (heq : cl.enqueueReadBuffer h n = (some res, c)) :
    res = (cl.mem h).take n ∧ c.reads = cl.reads ++ [h] ∧ c.dispatched = cl.dispatched := by
  unfold Engine.enqueueReadBuffer at heq
  split at heq
  · simp at heq
  · simp only [Prod.mk.injEq, Option.some.injEq] at heq
    obtain ⟨h1, h2⟩ := heq
    subst h1 h2
    simp

theorem enqueueReadBuffer_none (cl : Engine) (h n : Nat) (c : Engine)
    (heq : cl.enqueueReadBuffer h n = (none, c)) :
    c.reads = cl.reads ∧ c.dispatched = cl.dispatched := by
  unfold Engine.enqueueReadBuffer at heq
  split at heq
  · simp only [Prod.mk.injEq, true_and] at heq
    subst heq
    simp
  · simp at heq

/-- The dispatch and read logs of a run on a fresh engine, whatever the engine does:
the source/destination handles alternate between `1` and `2` (`result_d[0]` and
`result_d[1]`), and a completed run has read back `result_d[n % 2]`, `n` being the
number of dispatches. -/
theorem pingpong_logs (fuel : Nat) (cfg : Config) (L : Nat) (failAt : Nat → Bool) :
    ((run fuel cfg (Engine.fresh L failAt)).2.dispatched.map (fun d => (d.src, d.dst)) =
      (List.range (run fuel cfg (Engine.fresh L failAt)).2.dispatched.length).map
        (fun (i : Nat) => (resultD 1 2 ((i : Int) % 2), resultD 1 2 (((i : Int) + 1) % 2)))) ∧
    (∀ res, (run fuel cfg (Engine.fresh L failAt)).1 = Outcome.completed res →
      (run fuel cfg (Engine.fresh L failAt)).2.reads =
        [resultD 1 2 (((run fuel cfg (Engine.fresh L failAt)).2.dispatched.length : Int) % 2)]) := by
  by_cases hL : (Engine.fresh L failAt).maxWorkGroupSize = 0
  · rw [(abort_on_zero_size fuel cfg _ hL)]
    simp [Engine.fresh]
  · rcases run_after_alloc fuel cfg _ hL with ⟨h1, h2, h3⟩ | ⟨cl3, hd, hr, _, heq⟩
    · rw [h2]
      refine ⟨by simp [Engine.fresh], fun res hres => ?_⟩
      rw [h1] at hres
      cases hres
    · have hd0 : cl3.dispatched = [] := by rw [hd]; rfl
      have hr0 : cl3.reads = [] := by rw [hr]; rfl
      have hpp := chunkLoop_pingpong cfg (toSizeT (wrapInt (cfg.rows * cfg.cols)))
        (localWorkSize (toSizeT (wrapInt (cfg.rows * cfg.cols))) (Engine.fresh L failAt).maxWorkGroupSize)
        (Engine.fresh L failAt).nextHandle ((Engine.fresh L failAt).nextHandle + 1)
        ((Engine.fresh L failAt).nextHandle + 2) fuel 0 0 cl3 (by rw [hd0]; rfl)
        (by rw [hd0]; rfl)
      have hfl := chunkLoop_fields cfg (toSizeT (wrapInt (cfg.rows * cfg.cols)))
        (localWorkSize (toSizeT (wrapInt (cfg.rows * cfg.cols))) (Engine.fresh L failAt).maxWorkGroupSize)
        (Engine.fresh L failAt).nextHandle ((Engine.fresh L failAt).nextHandle + 1)
        ((Engine.fresh L failAt).nextHandle + 2) fuel 0 0 cl3
      rw [heq]
      generalize chunkLoop cfg (toSizeT (wrapInt (cfg.rows * cfg.cols)))
        (localWorkSize (toSizeT (wrapInt (cfg.rows * cfg.cols))) (Engine.fresh L failAt).maxWorkGroupSize)
        (Engine.fresh L failAt).nextHandle ((Engine.fresh L failAt).nextHandle + 1)
        ((Engine.fresh L failAt).nextHandle + 2) fuel 0 0 cl3 = q at hpp hfl
      obtain ⟨ex, cl4⟩ := q
      have hnh : (Engine.fresh L failAt).nextHandle = 0 := rfl
      simp only [hnh, Nat.zero_add] at hpp ⊢
      simp only at hfl
      cases ex with
      | failed => exact ⟨hpp.1, fun res hres => by cases hres⟩
      | unfinished => exact ⟨hpp.1, fun res hres => by cases hres⟩
      | done src =>
        simp only
        have hsrc := hpp.2 src rfl
        generalize hq5 : cl4.enqueueReadBuffer (resultD 1 2 src) (toSizeT cfg.cols) = q5
        obtain ⟨o5, cl5⟩ := q5
        cases o5 with
        | none =>
          have := enqueueReadBuffer_none _ _ _ _ hq5
          simp only
          rw [this.2]
          exact ⟨hpp.1, fun res hres => by cases hres⟩
        | some result =>
          have := enqueueReadBuffer_ok _ _ _ _ _ hq5
          simp only [Engine.releaseMemObject]
          rw [this.2.2, this.2.1, hfl.2.2.2, hr0]
          refine ⟨hpp.1, fun res _ => ?_⟩
          rw [← hsrc]
          rfl

theorem pingpong_at (r0 r1 : Nat) (D : List Dispatch)
    (hmap : D.map (fun d => (d.src, d.dst)) =
      (List.range D.length).map
        (fun (i : Nat) => (resultD r0 r1 ((i : Int) % 2), resultD r0 r1 (((i : Int) + 1) % 2))))
    (i : Nat) (d : Dispatch) (hd : D[i]? = some d) :
    d.src = resultD r0 r1 ((i : Int) % 2) ∧ d.dst = resultD r0 r1 (((i : Int) + 1) % 2) := by
  have hi : i < D.length := by
    rcases Nat.lt_or_ge i D.length with h | h
    · exact h
    · rw [List.getElem?_eq_none h] at hd
      cases hd
  have h1 : (D.map (fun d => (d.src, d.dst)))[i]? = some (d.src, d.dst) := by
    rw [List.getElem?_map, hd]
    rfl
  rw [hmap, List.getElem?_map, List.getElem?_range hi] at h1
  simp only [Option.map_some', Option.some.injEq, Prod.mk.injEq] at h1
  exact ⟨h1.1.symm, h1.2.symm⟩

/-- C4: in every run of `run()` on a fresh engine (any grid, chunk height, fuel and
engine behaviour) the result buffers form a ping-pong chain.  Handles `1` and `2` are
`result_d[0]` (created with row 0) and `result_d[1]`.  The first dispatch reads
`result_d[0]`; every dispatch writes a buffer other than the one it reads; every
later dispatch reads what the previous one wrote; the `i`-th dispatch reads
`result_d[i % 2]`; and a completed run has read back `result_d[n % 2]` for `n`
dispatches, which is `result_d[0]` when there was none and the destination of the
last dispatch otherwise. -/
theorem run_pingpong (fuel : Nat) (cfg : Config) (L : Nat) (failAt : Nat → Bool) :
    (∀ d, (run fuel cfg (Engine.fresh L failAt)).2.dispatched.head? = some d → d.src = 1) ∧
    (∀ d ∈ (run fuel cfg (Engine.fresh L failAt)).2.dispatched, d.dst ≠ d.src) ∧
    (∀ (i : Nat) (a b : Dispatch), (run fuel cfg (Engine.fresh L failAt)).2.dispatched[i]? = some a →
      (run fuel cfg (Engine.fresh L failAt)).2.dispatched[i + 1]? = some b → b.src = a.dst) ∧
    (∀ (i : Nat) (d : Dispatch), (run fuel cfg (Engine.fresh L failAt)).2.dispatched[i]? = some d →
      d.src = resultD 1 2 ((i : Int) % 2) ∧ d.dst = resultD 1 2 (((i : Int) + 1) % 2)) ∧
    (∀ res, (run fuel cfg (Engine.fresh L failAt)).1 = Outcome.completed res →
      (run fuel cfg (Engine.fresh L failAt)).2.reads =
        [resultD 1 2
          (((run fuel cfg (Engine.fresh L failAt)).2.dispatched.length : Int) % 2)] ∧
      ((run fuel cfg (Engine.fresh L failAt)).2.dispatched = [] →
        (run fuel cfg (Engine.fresh L failAt)).2.reads = [1]) ∧
      (∀ d, (run fuel cfg (Engine.fresh L failAt)).2.dispatched.getLast? = some d →
        (run fuel cfg (Engine.fresh L failAt)).2.reads = [d.dst])) := by
  obtain ⟨hmap, hread⟩ := pingpong_logs fuel cfg L failAt
  generalize (run fuel cfg (Engine.fresh L failAt)).2.dispatched = D at hmap hread
  have hat := pingpong_at 1 2 D hmap
  have hres : ∀ k : Int, resultD 1 2 (k % 2) ≠ resultD 1 2 ((k + 1) % 2) := by
    intro k
    unfold resultD
    rcases Int.emod_two_eq_zero_or_one k with h | h
    · have h2 : (k + 1) % 2 = 1 := by omega
      rw [h, h2]; decide
    · have h2 : (k + 1) % 2 = 0 := by omega
      rw [h, h2]; decide
  refine ⟨?_, ?_, ?_, hat, ?_⟩
  · intro d hd
    have h0 : D[0]? = some d := by
      cases D with
      | nil => cases hd
      | cons x xs => simpa using hd
    have := (hat 0 d h0).1
    simpa [resultD] using this
  · intro d hd
    obtain ⟨i, hi⟩ := List.mem_iff_getElem?.mp hd
    obtain ⟨h1, h2⟩ := hat i d hi
    rw [h1, h2]
    exact (hres i).symm
  · intro i a b ha hb
    rw [(hat (i + 1) b hb).1, (hat i a ha).2]
    push_cast
    rfl
  · intro res hr
    have hrd := hread res hr
    refine ⟨hrd, ?_, ?_⟩
    · intro hnil
      rw [hrd, hnil]
      rfl
    · intro d hd
      rw [List.getLast?_eq_getElem?] at hd
      have hpos : 0 < D.length := by
        rcases Nat.eq_zero_or_pos D.length with h | h
        · rw [List.getElem?_eq_none (by omega)] at hd
          cases hd
        · exact h
      have h2 := (hat (D.length - 1) d hd).2
      rw [hrd, h2]
      have hc : ((D.length - 1 : Nat) : Int) + 1 = (D.length : Int) := by omega
      rw [hc]

/-! ## The chunk loop on a reliable engine -/

/-- On a reliable engine a pass through the loop body always goes through: the
eleven bindings and the dispatch succeed, one log entry is appended and the
destination buffer receives the kernel output. -/
theorem chunkLoop_step_reliable (cfg : Config) (gw lw wall r0 r1 fuel : Nat) (h src : Int)
    (cl : Engine) (hrel : cl.Reliable) (hlt : h < wrapInt (cfg.rows - 1)) :
    ∃ cl2 : Engine, cl2.Reliable ∧
      cl2.dispatched = cl.dispatched ++
        [{ iteration := min cfg.height (wrapInt (wrapInt (cfg.rows - h) - 1)), height := h,
           src := resultD r0 r1 src, dst := resultD r0 r1 (1 - src),
           gwsize := gw, lwsize := lw }] ∧
      cl2.mem = (fun x =>
        if x = resultD r0 r1 (1 - src) then
          sweepKernel (cl.mem wall) cfg.cols.toNat
            (min cfg.height (wrapInt (wrapInt (cfg.rows - h) - 1))).toNat h.toNat
            (cl.mem (resultD r0 r1 src))
        else cl.mem x) ∧
      chunkLoop cfg gw lw wall r0 r1 (fuel + 1) h src cl =
        chunkLoop cfg gw lw wall r0 r1 fuel (wrapInt (h + cfg.height)) (1 - src) cl2 := by
  have hok := setKernelArgs_reliable (chunkArgs cfg lw wall r0 r1 h src) cl hrel
  have hb := setKernelArgs_fields (chunkArgs cfg lw wall r0 r1 h src) cl
  have hrel1 : (cl.setKernelArgs (chunkArgs cfg lw wall r0 r1 h src)).2.Reliable := by
    intro k
    rw [hb.1]
    exact hrel k
  have hok2 := enqueueNDRangeKernel_reliable _ gw lw hrel1
  have hargs := chunkArgs_bound cfg lw wall r0 r1 h src cl hok
  simp only at hargs
  obtain ⟨a0, a1, a2, a3, a4, a6⟩ := hargs
  have hd := enqueueNDRangeKernel_ok _ gw lw hok2
  have hf := enqueueNDRangeKernel_fields
    (cl.setKernelArgs (chunkArgs cfg lw wall r0 r1 h src)).2 gw lw
  rw [a0, a1, a2, a3, a4, a6, hb.2.2.2.1, hb.2.2.2.2.2.2.1] at hd
  simp only [KernelArg.asInt, KernelArg.asMem] at hd
  refine ⟨((cl.setKernelArgs (chunkArgs cfg lw wall r0 r1 h src)).2.enqueueNDRangeKernel
    gw lw).2, ?_, hd.1, hd.2, ?_⟩
  · intro k
    rw [hf.1]
    exact hrel1 k
  · rw [chunkLoop_succ cfg gw lw wall r0 r1 fuel h src cl hlt]
    simp only [hok, hok2, if_true]

/-- The same pass when no `int` operation of it overflows: `rows` is a positive
`int`, the chunk starts at a row `0 ≤ h < rows - 1`, and `h + cfg.height` fits. -/
theorem chunkLoop_step_exact (cfg : Config) (gw lw wall r0 r1 fuel : Nat) (h src : Int)
    (cl : Engine) (hrel : cl.Reliable) (hrowsM : cfg.rows ≤ INT_MAX) (h0 : 0 ≤ h)
    (hlt : h < cfg.rows - 1) (hH : 1 ≤ cfg.height) (hnext : h + cfg.height ≤ INT_MAX) :
    ∃ cl2 : Engine, cl2.Reliable ∧
      cl2.dispatched = cl.dispatched ++
        [{ iteration := min cfg.height (cfg.rows - h - 1), height := h,
           src := resultD r0 r1 src, dst := resultD r0 r1 (1 - src),
           gwsize := gw, lwsize := lw }] ∧
      cl2.mem = (fun x =>
        if x = resultD r0 r1 (1 - src) then
          sweepKernel (cl.mem wall) cfg.cols.toNat
            (min cfg.height (cfg.rows - h - 1)).toNat h.toNat (cl.mem (resultD r0 r1 src))
        else cl.mem x) ∧
      chunkLoop cfg gw lw wall r0 r1 (fuel + 1) h src cl =
        chunkLoop cfg gw lw wall r0 r1 fuel (h + cfg.height) (1 - src) cl2 := by
  unfold INT_MAX at hrowsM hnext
  have w1 : wrapInt (cfg.rows - 1) = cfg.rows - 1 := wrapInt_eq _ (by omega) (by omega)
  have w2 : wrapInt (cfg.rows - h) = cfg.rows - h := wrapInt_eq _ (by omega) (by omega)
  have w3 : wrapInt (cfg.rows - h - 1) = cfg.rows - h - 1 :=
    wrapInt_eq _ (by omega) (by omega)
  have w4 : wrapInt (h + cfg.height) = h + cfg.height := wrapInt_eq _ (by omega) (by omega)
  have hstep := chunkLoop_step_reliable cfg gw lw wall r0 r1 fuel h src cl hrel
    (by rw [w1]; exact hlt)
  rw [w2, w3, w4] at hstep
  exact hstep

/-- The loop is left at once when `height < rows - 1` fails, `rows` being a positive
`int`. -/
theorem chunkLoop_exit_exact (cfg : Config) (gw lw wall r0 r1 fuel : Nat) (h src : Int)
    (cl : Engine) (hrows : 1 ≤ cfg.rows) (hrowsM : cfg.rows ≤ INT_MAX)
    (hge : ¬ h < cfg.rows - 1) :
    chunkLoop cfg gw lw wall r0 r1 fuel h src cl = (LoopExit.done src, cl) := by
  unfold INT_MAX at hrowsM
  have w1 : wrapInt (cfg.rows - 1) = cfg.rows - 1 := wrapInt_eq _ (by omega) (by omega)
  exact chunkLoop_exit cfg gw lw wall r0 r1 fuel h src cl (by rw [w1]; exact hge)

/-- When the loop variable after the last chunk fits (`bound`), so does the loop
variable after any chunk that starts below `rows - 1` at a multiple of the height. -/
theorem next_start_fits (rows H k M : Int) (hH : 1 ≤ H) (hlt : k * H < rows - 1)
    (hb : (rows - 2) / H * H + H ≤ M) : k * H + H ≤ M := by
  have h1 : k * H ≤ rows - 2 := by omega
  have h2 : k ≤ (rows - 2) / H := Int.le_ediv_of_mul_le (by omega) h1
  have h3 : k * H ≤ (rows - 2) / H * H := Int.mul_le_mul_of_nonneg_right h2 (by omega)
  linarith

/-- With a positive `int` row count, chunk height at least `1`, no overflow of the
loop variable and enough fuel, the chunk loop on a reliable engine, entered at a
multiple `h` of the chunk height, ends normally, and the dispatches it adds
partition the row transitions left: each lies inside `[h, rows-1)` and advances
between `1` and `cfg.height` rows, the first starts at `h`, each next one starts
where the previous one ends, starts increase strictly, and the iteration counts add
up to the rows left. -/
theorem chunkLoop_partition (cfg : Config) (gw lw wall r0 r1 : Nat) (hrows : 1 ≤ cfg.rows)
    (hrowsM : cfg.rows ≤ INT_MAX) (hH : 1 ≤ cfg.height)
    (hb : (cfg.rows - 2) / cfg.height * cfg.height + cfg.height ≤ INT_MAX) (fuel : Nat) :
    ∀ (k h src : Int) (cl : Engine), cl.Reliable → 0 ≤ k → h = k * cfg.height →
      cfg.rows - 1 - h ≤ fuel →
      ∃ s new, (chunkLoop cfg gw lw wall r0 r1 fuel h src cl).1 = LoopExit.done s ∧
        (chunkLoop cfg gw lw wall r0 r1 fuel h src cl).2.dispatched = cl.dispatched ++ new ∧
        (∀ d ∈ new, 1 ≤ d.iteration ∧ d.iteration ≤ cfg.height ∧ h ≤ d.height ∧
          d.height + d.iteration ≤ cfg.rows - 1) ∧
        (∀ d, new.head? = some d → d.height = h) ∧
        List.Chain' (fun a b => b.height = a.height + a.iteration) new ∧
        List.Pairwise (fun a b => a.height < b.height) new ∧
        (new.map (fun d => d.iteration)).sum = max 0 (cfg.rows - 1 - h) := by
  induction fuel with
  | zero =>
    intro k h src cl _ _ _ hfuel
    have hge : ¬ h < cfg.rows - 1 := by
      simp only [CharP.cast_eq_zero] at hfuel
      omega
    rw [chunkLoop_exit_exact cfg gw lw wall r0 r1 0 h src cl hrows hrowsM hge]
    refine ⟨src, [], rfl, by simp, by simp, by simp, List.chain'_nil, List.Pairwise.nil, ?_⟩
    simp only [List.map_nil, List.sum_nil]
    omega
  | succ fuel ih =>
    intro k h src cl hrel hk hkh hfuel
    have h0 : 0 ≤ h := by
      rw [hkh]
      exact Int.mul_nonneg hk (by omega)
    by_cases hlt : h < cfg.rows - 1
    · have hnext : h + cfg.height ≤ INT_MAX := by
        rw [hkh]
        exact next_start_fits cfg.rows cfg.height k INT_MAX hH (by rw [← hkh]; exact hlt) hb
      obtain ⟨cl2, hrel2, hd2, _, heq⟩ :=
        chunkLoop_step_exact cfg gw lw wall r0 r1 fuel h src cl hrel hrowsM h0 hlt hH hnext
      rw [heq]
      obtain ⟨s, new, e1, e2, i1, i2, i3, i4, i5⟩ :=
        ih (k + 1) (h + cfg.height) (1 - src) cl2 hrel2 (by omega) (by rw [hkh]; ring) (by
          push_cast at hfuel
          omega)
      have hnew : ∀ x ∈ new, h + cfg.height ≤ x.height ∧ h + cfg.height < cfg.rows - 1 := by
        intro x hx
        have := i1 x hx
        omega
      refine ⟨s, (Dispatch.mk (min cfg.height (cfg.rows - h - 1)) h (resultD r0 r1 src)
        (resultD r0 r1 (1 - src)) gw lw) :: new, e1, ?_, ?_, ?_, ?_, ?_, ?_⟩
      · rw [e2, hd2]
        simp
      · intro x hx
        rcases List.mem_cons.mp hx with hx | hx
        · subst hx
          simp only
          omega
        · have := i1 x hx
          omega
      · intro x hx
        simp only [List.head?_cons, Option.some.injEq] at hx
        rw [← hx]
      · rw [List.chain'_cons']
        refine ⟨?_, i3⟩
        intro x hx
        have hxm : x ∈ new := List.mem_of_mem_head? hx
        have h1 := i2 x hx
        have h2 := hnew x hxm
        rw [h1]
        simp only
        omega
      · rw [List.pairwise_cons]
        refine ⟨?_, i4⟩
        intro x hx
        have := hnew x hx
        simp only
        omega
      · simp only [List.map_cons, List.sum_cons]
        rw [i5]
        omega
    · rw [chunkLoop_exit_exact cfg gw lw wall r0 r1 (fuel + 1) h src cl hrows hrowsM hlt]
      refine ⟨src, [], rfl, by simp, by simp, by simp, List.chain'_nil, List.Pairwise.nil, ?_⟩
      simp only [List.map_nil, List.sum_nil]
      omega

/-! ## A whole run on a reliable engine -/

/-- On a reliable engine with a non-zero work-group size the three allocations
succeed: the run is the chunk loop on the engine `cl3` they leave, in which the wall
buffer holds the grid after row 0 and `result_d[0]` holds row 0, followed by the
read-back and the releases. -/
theorem run_reliable (fuel : Nat) (cfg : Config) (cl : Engine) (hrel : cl.Reliable)
    (hL : cl.maxWorkGroupSize ≠ 0) :
    ∃ cl3 : Engine, cl3.Reliable ∧ cl3.dispatched = cl.dispatched ∧
      cl3.mem cl.nextHandle = (cfg.data.drop cfg.cols.toNat).take
        (toSizeT (↑(toSizeT (wrapInt (cfg.rows * cfg.cols))) - cfg.cols)) ∧
      cl3.mem (cl.nextHandle + 1) = cfg.data.take (toSizeT cfg.cols) ∧
      run fuel cfg cl =
        (match chunkLoop cfg (toSizeT (wrapInt (cfg.rows * cfg.cols)))
            (localWorkSize (toSizeT (wrapInt (cfg.rows * cfg.cols))) cl.maxWorkGroupSize)
            cl.nextHandle (cl.nextHandle + 1) (cl.nextHandle + 2) fuel 0 0 cl3 with
        | (LoopExit.failed, cl4) => (Outcome.failed, cl4)
        | (LoopExit.unfinished, cl4) => (Outcome.unfinished, cl4)
        | (LoopExit.done src, cl4) =>
          match cl4.enqueueReadBuffer (resultD (cl.nextHandle + 1) (cl.nextHandle + 2) src)
              (toSizeT cfg.cols) with
          | (none, cl5) => (Outcome.failed, cl5)
          | (some result, cl5) =>
            (Outcome.completed result,
              ((cl5.releaseMemObject cl.nextHandle).releaseMemObject
                (cl.nextHandle + 1)).releaseMemObject (cl.nextHandle + 2))) := by
  have h0 := hrel cl.calls
  have h1 := hrel (cl.calls + 1)
  have h2 := hrel (cl.calls + 1 + 1)
  refine ⟨(((cl.createBuffer (toSizeT (↑(toSizeT (wrapInt (cfg.rows * cfg.cols))) - cfg.cols))
      (some (cfg.data.drop cfg.cols.toNat))).2.createBuffer (toSizeT cfg.cols)
      (some cfg.data)).2.createBuffer (toSizeT cfg.cols) none).2, ?_, ?_, ?_, ?_, ?_⟩
  · intro k
    rw [(createBuffer_fields _ _ _).1, (createBuffer_fields _ _ _).1,
      (createBuffer_fields _ _ _).1]
    exact hrel k
  · rw [(createBuffer_fields _ _ _).2.2.2.1, (createBuffer_fields _ _ _).2.2.2.1,
      (createBuffer_fields _ _ _).2.2.2.1]
  · simp only [Engine.createBuffer, h0, h1, h2, Bool.false_eq_true, if_false]
    rw [if_neg (by omega), if_neg (by omega), if_pos trivial]
  · simp only [Engine.createBuffer, h0, h1, h2, Bool.false_eq_true, if_false]
    rw [if_neg (by omega), if_pos trivial]
  · unfold run
    simp [Engine.getWorkGroupSize, hL, Engine.createBuffer, h0, h1, h2]

/-- A run on a reliable engine with a non-zero work-group size, summed up: when the
chunk loop on the engine left by the allocations ends normally with `src = s`, the
run completes with the first `cols` entries of `result_d[s]`, and its dispatch log
is that of the loop. -/
theorem run_reliable_done (fuel : Nat) (cfg : Config) (cl : Engine) (hrel : cl.Reliable)
    (hL : cl.maxWorkGroupSize ≠ 0) :
    ∃ cl3 : Engine, cl3.Reliable ∧ cl3.dispatched = cl.dispatched ∧
      cl3.mem cl.nextHandle = (cfg.data.drop cfg.cols.toNat).take
        (toSizeT (↑(toSizeT (wrapInt (cfg.rows * cfg.cols))) - cfg.cols)) ∧
      cl3.mem (cl.nextHandle + 1) = cfg.data.take (toSizeT cfg.cols) ∧
      ∀ (s : Int) (cl4 : Engine),
        chunkLoop cfg (toSizeT (wrapInt (cfg.rows * cfg.cols)))
            (localWorkSize (toSizeT (wrapInt (cfg.rows * cfg.cols))) cl.maxWorkGroupSize)
            cl.nextHandle (cl.nextHandle + 1) (cl.nextHandle + 2) fuel 0 0 cl3 =
          (LoopExit.done s, cl4) →
        (run fuel cfg cl).1 = Outcome.completed
          ((cl4.mem (resultD (cl.nextHandle + 1) (cl.nextHandle + 2) s)).take
            (toSizeT cfg.cols)) ∧
        (run fuel cfg cl).2.dispatched = cl4.dispatched := by
  obtain ⟨cl3, hrel3, hd3, hm0, hm1, heq⟩ := run_reliable fuel cfg cl hrel hL
  refine ⟨cl3, hrel3, hd3, hm0, hm1, ?_⟩
  intro s cl4 hloop
  have hf := (chunkLoop_fields cfg (toSizeT (wrapInt (cfg.rows * cfg.cols)))
    (localWorkSize (toSizeT (wrapInt (cfg.rows * cfg.cols))) cl.maxWorkGroupSize)
    cl.nextHandle (cl.nextHandle + 1) (cl.nextHandle + 2) fuel 0 0 cl3).1
  rw [hloop] at hf
  simp only at hf
  have hrel4 : cl4.failAt cl4.calls = false := by
    rw [hf]
    exact hrel3 _
  rw [heq, hloop]
  simp [Engine.enqueueReadBuffer, hrel4, Engine.releaseMemObject]

/-! ## Overflow of the loop variable -/

theorem overflowGrid_rows : overflowGrid.rows = 1073741826 := rfl

theorem overflowGrid_height : overflowGrid.height = 1073741824 := rfl

/-- On `overflowGrid` the loop variable runs through `0`, `2^30`, `-2^31`, `-2^30` and
back to `0`, each below `rows - 1`: on a reliable engine the chunk loop is still
running whatever the fuel. -/
theorem chunkLoop_overflow_cycles (gw lw wall r0 r1 : Nat) (fuel : Nat) :
    ∀ (h src : Int) (cl : Engine), cl.Reliable →
      (h = 0 ∨ h = 1073741824 ∨ h = -2147483648 ∨ h = -1073741824) →
      (chunkLoop overflowGrid gw lw wall r0 r1 fuel h src cl).1 = LoopExit.unfinished := by
  have hcond : ∀ h : Int, (h = 0 ∨ h = 1073741824 ∨ h = -2147483648 ∨ h = -1073741824) →
      h < wrapInt (overflowGrid.rows - 1) := by
    intro h hh
    rw [overflowGrid_rows]
    unfold wrapInt
    omega
  induction fuel with
  | zero =>
    intro h src cl _ hh
    simp only [chunkLoop, hcond h hh, if_true]
  | succ fuel ih =>
    intro h src cl hrel hh
    obtain ⟨cl2, hrel2, _, _, heq⟩ :=
      chunkLoop_step_reliable overflowGrid gw lw wall r0 r1 fuel h src cl hrel (hcond h hh)
    rw [heq]
    apply ih _ _ _ hrel2
    rw [overflowGrid_height]
    unfold wrapInt
    omega

/-- On `overflowGrid`, against a reliable engine with a non-zero work-group size,
`run()` never gets past the chunk loop. -/
theorem run_overflow_unfinished (fuel L : Nat) (hL : L ≠ 0) :
    (run fuel overflowGrid (Engine.fresh L (fun _ => false))).1 = Outcome.unfinished := by
  have hrel : (Engine.fresh L (fun _ => false)).Reliable := fun _ => rfl
  obtain ⟨cl3, hrel3, _, _, _, heq⟩ :=
    run_reliable fuel overflowGrid (Engine.fresh L (fun _ => false)) hrel hL
  have hloop := chunkLoop_overflow_cycles
    (toSizeT (wrapInt (overflowGrid.rows * overflowGrid.cols)))
    (localWorkSize (toSizeT (wrapInt (overflowGrid.rows * overflowGrid.cols)))
      (Engine.fresh L (fun _ => false)).maxWorkGroupSize)
    (Engine.fresh L (fun _ => false)).nextHandle
    ((Engine.fresh L (fun _ => false)).nextHandle + 1)
    ((Engine.fresh L (fun _ => false)).nextHandle + 2) fuel 0 0 cl3 hrel3 (Or.inl rfl)
  rw [heq]
  generalize chunkLoop overflowGrid (toSizeT (wrapInt (overflowGrid.rows * overflowGrid.cols)))
    (localWorkSize (toSizeT (wrapInt (overflowGrid.rows * overflowGrid.cols)))
      (Engine.fresh L (fun _ => false)).maxWorkGroupSize)
    (Engine.fresh L (fun _ => false)).nextHandle
    ((Engine.fresh L (fun _ => false)).nextHandle + 1)
    ((Engine.fresh L (fun _ => false)).nextHandle + 2) fuel 0 0 cl3 = q at hloop
  obtain ⟨ex, cl4⟩ := q
  simp only at hloop
  subst hloop
  rfl

/-- C3, as stated, fails: with `rows = 2^30 + 2` and `H = 2^30` the loop variable
reaches `2^31` after the second chunk, which no `int` holds; wrapped around, the loop
goes on with a third chunk at height `-2^31` and a negative iteration count, and on
a reliable engine it never terminates. -/
theorem run_chunks_overflow :
    1 ≤ overflowGrid.rows ∧ 1 ≤ overflowGrid.height ∧
    (¬ ∃ fuel res,
      (run fuel overflowGrid (Engine.fresh 1 (fun _ => false))).1 = Outcome.completed res) ∧
    (run 3 overflowGrid (Engine.fresh 1 (fun _ => false))).2.dispatched.map
        (fun d => (d.height, d.iteration)) =
      [(0, 1073741824), (1073741824, 1), (-2147483648, -1073741823)] := by
  refine ⟨by decide, by decide, ?_, by decide⟩
  rintro ⟨fuel, res, h⟩
  rw [run_overflow_unfinished fuel 1 (by decide)] at h
  cases h

/-- C3, amended: for every `int` row count `rows ≥ 1` and chunk height `H ≥ 1` for
which the loop variable after the last chunk, `(rows - 2) / H * H + H`, still fits an
`int`, on a reliable engine with a non-zero work-group size and with fuel for
`rows - 1` loop iterations, the chunk loop of `run()` terminates (the run completes)
and its dispatches partition the row transitions `[0, rows-1)` exactly: the first
chunk starts at height `0`; each chunk has `1 ≤ iteration ≤ H` and ends no later
than `rows - 1`; each next chunk starts at the previous height plus iteration; the
starts increase strictly; and the iteration counts add up to `rows - 1`. -/
theorem run_chunks_partition (fuel : Nat) (cfg : Config) (L : Nat) (hrows : 1 ≤ cfg.rows)
    (hrowsM : cfg.rows ≤ INT_MAX) (hH : 1 ≤ cfg.height)
    (hb : (cfg.rows - 2) / cfg.height * cfg.height + cfg.height ≤ INT_MAX)
    (hL : L ≠ 0) (hfuel : cfg.rows - 1 ≤ fuel) :
    (∃ res, (run fuel cfg (Engine.fresh L (fun _ => false))).1 = Outcome.completed res) ∧
    (∀ d, (run fuel cfg (Engine.fresh L (fun _ => false))).2.dispatched.head? = some d →
      d.height = 0) ∧
    (∀ d ∈ (run fuel cfg (Engine.fresh L (fun _ => false))).2.dispatched,
      1 ≤ d.iteration ∧ d.iteration ≤ cfg.height ∧ 0 ≤ d.height ∧
        d.height + d.iteration ≤ cfg.rows - 1) ∧
    List.Chain' (fun a b => b.height = a.height + a.iteration)
      (run fuel cfg (Engine.fresh L (fun _ => false))).2.dispatched ∧
    List.Pairwise (fun a b => a.height < b.height)
      (run fuel cfg (Engine.fresh L (fun _ => false))).2.dispatched ∧
    ((run fuel cfg (Engine.fresh L (fun _ => false))).2.dispatched.map
      (fun d => d.iteration)).sum = cfg.rows - 1 := by
  have hrel : (Engine.fresh L (fun _ => false)).Reliable := fun _ => rfl
  obtain ⟨cl3, hrel3, hd3, _, _, hdone⟩ :=
    run_reliable_done fuel cfg (Engine.fresh L (fun _ => false)) hrel hL
  obtain ⟨s, new, h1, h2, p1, p2, p3, p4, p5⟩ := chunkLoop_partition cfg
    (toSizeT (wrapInt (cfg.rows * cfg.cols)))
    (localWorkSize (toSizeT (wrapInt (cfg.rows * cfg.cols)))
      (Engine.fresh L (fun _ => false)).maxWorkGroupSize)
    (Engine.fresh L (fun _ => false)).nextHandle
    ((Engine.fresh L (fun _ => false)).nextHandle + 1)
    ((Engine.fresh L (fun _ => false)).nextHandle + 2) hrows hrowsM hH hb fuel 0 0 0 cl3
    hrel3 (le_refl 0) (by ring) (by omega)
  have hpair := hdone s _ (Prod.ext h1 rfl)
  have hnew : (run fuel cfg (Engine.fresh L (fun _ => false))).2.dispatched = new := by
    rw [hpair.2, h2, hd3]
    rfl
  rw [hnew]
  refine ⟨⟨_, hpair.1⟩, p2, p1, p3, p4, ?_⟩
  rw [p5]
  omega

theorem run_chunks_partition_witness :
    (∃ res, (run 2 (exampleGrid 1) (Engine.fresh 4 (fun _ => false))).1 =
      Outcome.completed res) ∧
    (∀ d, (run 2 (exampleGrid 1) (Engine.fresh 4 (fun _ => false))).2.dispatched.head? = some d →
      d.height = 0) ∧
    (∀ d ∈ (run 2 (exampleGrid 1) (Engine.fresh 4 (fun _ => false))).2.dispatched,
      1 ≤ d.iteration ∧ d.iteration ≤ (exampleGrid 1).height ∧ 0 ≤ d.height ∧
        d.height + d.iteration ≤ (exampleGrid 1).rows - 1) ∧
    List.Chain' (fun a b => b.height = a.height + a.iteration)
      (run 2 (exampleGrid 1) (Engine.fresh 4 (fun _ => false))).2.dispatched ∧
    List.Pairwise (fun a b => a.height < b.height)
      (run 2 (exampleGrid 1) (Engine.fresh 4 (fun _ => false))).2.dispatched ∧
    ((run 2 (exampleGrid 1) (Engine.fresh 4 (fun _ => false))).2.dispatched.map
      (fun d => d.iteration)).sum = (exampleGrid 1).rows - 1 :=
  run_chunks_partition 2 (exampleGrid 1) 4 (by decide) (by decide) (by decide) (by decide)
    (by decide) (by decide)

/-! ## The chunked sweep against the sequential sweep -/

theorem sweepKernel_add (wall : List Int) (cols : Nat) (a b : Nat) :
    ∀ (r : Nat) (p : List Int),
      sweepKernel wall cols (a + b) r p =
        sweepKernel wall cols b (r + a) (sweepKernel wall cols a r p) := by
  induction a with
  | zero =>
    intro r p
    simp [sweepKernel]
  | succ a ih =>
    intro r p
    have h1 : a + 1 + b = (a + b) + 1 := by omega
    have h2 : r + (a + 1) = r + 1 + a := by omega
    rw [h1, h2]
    simp only [sweepKernel]
    exact ih (r + 1) _

theorem sweepKernel_zero (wall : List Int) (cols r : Nat) (p : List Int) :
    sweepKernel wall cols 0 r p = p := by
  simp [sweepKernel]

theorem resultD_mem (r0 r1 : Nat) (i : Int) : resultD r0 r1 i = r0 ∨ resultD r0 r1 i = r1 := by
  unfold resultD
  split
  · exact Or.inl rfl
  · exact Or.inr rfl

/-- On a reliable engine, with a positive `int` row count, chunk height at least
`1`, no overflow of the loop variable and enough fuel, the chunk loop entered at a
multiple `h` of the chunk height ends normally, and the buffer it leaves as the
source holds the kernel's row update applied `rows - 1 - h` times from row `h` to
what the source buffer held on entry. -/
theorem chunkLoop_sweep (cfg : Config) (gw lw wall r0 r1 : Nat) (hrows : 1 ≤ cfg.rows)
    (hrowsM : cfg.rows ≤ INT_MAX) (hH : 1 ≤ cfg.height)
    (hb : (cfg.rows - 2) / cfg.height * cfg.height + cfg.height ≤ INT_MAX)
    (hw0 : wall ≠ r0) (hw1 : wall ≠ r1) (fuel : Nat) :
    ∀ (k h src : Int) (cl : Engine), cl.Reliable → 0 ≤ k → h = k * cfg.height →
      cfg.rows - 1 - h ≤ fuel →
      ∃ s cl4, chunkLoop cfg gw lw wall r0 r1 fuel h src cl = (LoopExit.done s, cl4) ∧
        cl4.mem (resultD r0 r1 s) =
          sweepKernel (cl.mem wall) cfg.cols.toNat (cfg.rows - 1 - h).toNat h.toNat
            (cl.mem (resultD r0 r1 src)) := by
  induction fuel with
  | zero =>
    intro k h src cl _ _ _ hfuel
    have hge : ¬ h < cfg.rows - 1 := by
      simp only [CharP.cast_eq_zero] at hfuel
      omega
    rw [chunkLoop_exit_exact cfg gw lw wall r0 r1 0 h src cl hrows hrowsM hge]
    refine ⟨src, cl, rfl, ?_⟩
    have hz : (cfg.rows - 1 - h).toNat = 0 := by omega
    rw [hz, sweepKernel_zero]
  | succ fuel ih =>
    intro k h src cl hrel hk hkh hfuel
    have h0 : 0 ≤ h := by
      rw [hkh]
      exact Int.mul_nonneg hk (by omega)
    by_cases hlt : h < cfg.rows - 1
    · have hnext : h + cfg.height ≤ INT_MAX := by
        rw [hkh]
        exact next_start_fits cfg.rows cfg.height k INT_MAX hH (by rw [← hkh]; exact hlt) hb
      obtain ⟨cl2, hrel2, _, hm2, heq⟩ :=
        chunkLoop_step_exact cfg gw lw wall r0 r1 fuel h src cl hrel hrowsM h0 hlt hH hnext
      rw [heq]
      obtain ⟨s, cl4, h1, h2⟩ := ih (k + 1) (h + cfg.height) (1 - src) cl2 hrel2 (by omega)
        (by rw [hkh]; ring) (by
          push_cast at hfuel
          omega)
      refine ⟨s, cl4, h1, ?_⟩
      rw [h2, hm2]
      have hwall : wall ≠ resultD r0 r1 (1 - src) := by
        rcases resultD_mem r0 r1 (1 - src) with e | e <;> rw [e] <;> assumption
      simp only [if_neg hwall, if_true]
      by_cases hcase : cfg.height ≤ cfg.rows - 1 - h
      · have hit : min cfg.height (cfg.rows - h - 1) = cfg.height := by omega
        rw [hit]
        have e1 : (cfg.rows - 1 - h).toNat =
            cfg.height.toNat + (cfg.rows - 1 - (h + cfg.height)).toNat := by omega
        have e2 : (h + cfg.height).toNat = h.toNat + cfg.height.toNat := by omega
        rw [e1, e2, sweepKernel_add]
      · have hit : min cfg.height (cfg.rows - h - 1) = cfg.rows - 1 - h := by omega
        rw [hit]
        have e1 : (cfg.rows - 1 - (h + cfg.height)).toNat = 0 := by omega
        rw [e1, sweepKernel_zero]
    · rw [chunkLoop_exit_exact cfg gw lw wall r0 r1 (fuel + 1) h src cl hrows hrowsM hlt]
      refine ⟨src, cl, rfl, ?_⟩
      have hz : (cfg.rows - 1 - h).toNat = 0 := by omega
      rw [hz, sweepKernel_zero]

theorem toSizeT_of_fit (x : Int) (h0 : 0 ≤ x) (h1 : x < 2 ^ 64) : toSizeT x = x.toNat := by
  unfold toSizeT
  rw [Int.emod_eq_of_lt h0 h1]

/-- The wall buffer staged by `run()` holds, at offset `r * cols + c`, the cost of
grid row `r + 1`, column `c`, for every row transition `r < rows - 1`. -/
theorem wall_getD (data : List Int) (C N r c : Nat) (hN : r * C + c < N) :
    ((data.drop C).take N).getD (r * C + c) 0 = data.getD ((r + 1) * C + c) 0 := by
  simp only [List.getD_eq_getElem?_getD]
  rw [List.getElem?_take_of_lt hN, List.getElem?_drop]
  congr 2
  ring

theorem rowUpdate_eq_naiveRow (cfg : Config) (N r : Nat) (prev : List Int)
    (hN : (r + 1) * cfg.cols.toNat ≤ N) :
    rowUpdate ((cfg.data.drop cfg.cols.toNat).take N) cfg.cols.toNat r prev =
      naiveRow cfg (r + 1) prev := by
  unfold rowUpdate naiveRow Config.cost
  apply List.map_congr_left
  intro c hc
  rw [List.mem_range] at hc
  rw [wall_getD]
  have : r * cfg.cols.toNat + cfg.cols.toNat = (r + 1) * cfg.cols.toNat := by ring
  omega

/-- The kernel's row updates on the staged wall buffer are the rows of the naive
sweep, as long as they stay inside the buffer. -/
theorem sweepKernel_eq_naiveFrom (cfg : Config) (N : Nat) (n : Nat) :
    ∀ (r : Nat) (prev : List Int), (r + n) * cfg.cols.toNat ≤ N →
      sweepKernel ((cfg.data.drop cfg.cols.toNat).take N) cfg.cols.toNat n r prev =
        naiveFrom cfg n (r + 1) prev := by
  induction n with
  | zero =>
    intro r prev _
    simp [sweepKernel, naiveFrom]
  | succ n ih =>
    intro r prev hN
    simp only [sweepKernel, naiveFrom]
    have h1 : (r + 1) * cfg.cols.toNat ≤ N := by
      have : (r + 1) * cfg.cols.toNat ≤ (r + (n + 1)) * cfg.cols.toNat :=
        Nat.mul_le_mul_right _ (by omega)
      omega
    rw [rowUpdate_eq_naiveRow cfg N r prev h1]
    exact ih (r + 1) _ (by
      have : r + 1 + n = r + (n + 1) := by omega
      rw [this]; exact hN)

theorem naiveFrom_length_le (cfg : Config) (n : Nat) :
    ∀ (r : Nat) (prev : List Int), prev.length ≤ cfg.cols.toNat →
      (naiveFrom cfg n r prev).length ≤ cfg.cols.toNat := by
  induction n with
  | zero =>
    intro r prev h
    simpa [naiveFrom] using h
  | succ n ih =>
    intro r prev _
    simp only [naiveFrom]
    apply ih
    simp [naiveRow]

/-- The size of the wall buffer requested by `run()`, for a grid whose cell count
fits an `int`. -/
theorem wall_size (cfg : Config) (hrows : 1 ≤ cfg.rows) (hcols : 1 ≤ cfg.cols)
    (hfit : cfg.rows * cfg.cols ≤ INT_MAX) :
    (cfg.rows.toNat - 1) * cfg.cols.toNat ≤
      toSizeT (↑(toSizeT (wrapInt (cfg.rows * cfg.cols))) - cfg.cols) := by
  have hge : cfg.cols ≤ cfg.rows * cfg.cols := by nlinarith
  rw [gwsize_of_fit cfg.rows cfg.cols hrows hcols hfit]
  unfold INT_MAX at hfit
  rw [toSizeT_of_fit _ (by omega) (by omega)]
  have e : cfg.rows * cfg.cols - cfg.cols = (cfg.rows - 1) * cfg.cols := by ring
  rw [e]
  have h1 : ((cfg.rows.toNat - 1 : Nat) : Int) = cfg.rows - 1 := by omega
  have h2 : ((cfg.cols.toNat : Nat) : Int) = cfg.cols := by omega
  have h3 : (((cfg.rows.toNat - 1) * cfg.cols.toNat : Nat) : Int) =
      (cfg.rows - 1) * cfg.cols := by
    push_cast
    rw [h1, h2]
  apply le_of_eq
  apply Int.ofNat_inj.mp
  rw [Int.toNat_of_nonneg (by nlinarith)]
  exact h3

/-- The result of `run()` on a reliable engine: for a grid with `rows ≥ 1`,
`cols ≥ 1` whose cell count fits an `int`, chunk height at least `1` that does not
overflow the loop variable, a non-zero work-group size and fuel for `rows - 1` loop
iterations, the run completes with the result of the naive sequential sweep. -/
theorem run_eq_naiveSweep (fuel : Nat) (cfg : Config) (cl : Engine) (hrel : cl.Reliable)
    (hL : cl.maxWorkGroupSize ≠ 0) (hrows : 1 ≤ cfg.rows) (hcols : 1 ≤ cfg.cols)
    (hfit : cfg.rows * cfg.cols ≤ INT_MAX) (hH : 1 ≤ cfg.height)
    (hb : (cfg.rows - 2) / cfg.height * cfg.height + cfg.height ≤ INT_MAX)
    (hfuel : cfg.rows - 1 ≤ fuel) :
    (run fuel cfg cl).1 = Outcome.completed (naiveSweep cfg) := by
  have hrowsM : cfg.rows ≤ INT_MAX := by nlinarith
  have hcolsM : cfg.cols ≤ INT_MAX := by nlinarith
  obtain ⟨cl3, hrel3, _, hm0, hm1, hdone⟩ := run_reliable_done fuel cfg cl hrel hL
  obtain ⟨s, cl4, hloop, hmem⟩ := chunkLoop_sweep cfg
    (toSizeT (wrapInt (cfg.rows * cfg.cols)))
    (localWorkSize (toSizeT (wrapInt (cfg.rows * cfg.cols))) cl.maxWorkGroupSize)
    cl.nextHandle (cl.nextHandle + 1) (cl.nextHandle + 2) hrows hrowsM hH hb (by omega)
    (by omega) fuel 0 0 0 cl3 hrel3 (le_refl 0) (by ring) (by omega)
  rw [(hdone s cl4 hloop).1, hmem, hm0]
  unfold INT_MAX at hcolsM
  have hsz : toSizeT cfg.cols = cfg.cols.toNat := toSizeT_of_fit _ (by omega) (by omega)
  have hr0 : cl3.mem (resultD (cl.nextHandle + 1) (cl.nextHandle + 2) 0) = cfg.row0 := by
    simp only [resultD, if_true, hm1, hsz, Config.row0]
  rw [hr0]
  have hn : (cfg.rows - 1 - 0).toNat = cfg.rows.toNat - 1 := by omega
  have hz : (0 : Int).toNat = 0 := rfl
  rw [hn, hz, sweepKernel_eq_naiveFrom cfg _ (cfg.rows.toNat - 1) 0 cfg.row0 (by
    rw [Nat.zero_add]
    exact wall_size cfg hrows hcols hfit)]
  rw [hsz]
  congr 1
  apply List.take_of_length_le
  apply naiveFrom_length_le
  simp [Config.row0]

/-- The naive sweep does not look at the chunk height. -/
theorem naiveSweep_height (cfg : Config) (H : Int) :
    naiveSweep { cfg with height := H } = naiveSweep cfg := by
  have hfrom : ∀ (n r : Nat) (p : List Int),
      naiveFrom { cfg with height := H } n r p = naiveFrom cfg n r p := by
    intro n
    induction n with
    | zero => intro r p; rfl
    | succ n ih =>
      intro r p
      simp only [naiveFrom]
      rw [ih]
      rfl
  unfold naiveSweep
  rw [hfrom]
  rfl

/-- C1, as stated, fails: on the one-column grid with `rows = 2^30 + 2` and chunk
height `H = 2^30` the loop variable overflows after the second chunk and, on a
reliable engine, `run()` never reaches the read-back, so it never returns the result
of the naive sweep. -/
theorem run_overflow_no_result :
    1 ≤ overflowGrid.rows ∧ 1 ≤ overflowGrid.cols ∧ 1 ≤ overflowGrid.height ∧
    ¬ ∃ fuel, (run fuel overflowGrid (Engine.fresh 1 (fun _ => false))).1 =
      Outcome.completed (naiveSweep overflowGrid) := by
  refine ⟨by decide, by decide, by decide, ?_⟩
  rintro ⟨fuel, h⟩
  rw [run_overflow_unfinished fuel 1 (by decide)] at h
  cases h

/-- C1, amended: for every grid with `rows ≥ 1` and `cols ≥ 1` whose cell count
`rows * cols` fits an `int`, and every chunk height `H ≥ 1` for which the loop
variable after the last chunk, `(rows - 2) / H * H + H`, fits an `int`, with each
dispatch applying the single-row update rule `iteration` times from row `height`,
the result read back by `run()` on a reliable engine is the result of the naive
row-by-row sweep over rows `1 .. rows-1` from row 0; hence the results for any two
such chunk heights `H1`, `H2` are identical. -/
theorem run_refines_naiveSweep (fuel : Nat) (cfg : Config) (H1 H2 : Int) (L : Nat)
    (hL : L ≠ 0) (hrows : 1 ≤ cfg.rows) (hcols : 1 ≤ cfg.cols)
    (hfit : cfg.rows * cfg.cols ≤ INT_MAX) (hH1 : 1 ≤ H1) (hH2 : 1 ≤ H2)
    (hb1 : (cfg.rows - 2) / H1 * H1 + H1 ≤ INT_MAX)
    (hb2 : (cfg.rows - 2) / H2 * H2 + H2 ≤ INT_MAX)
    (hfuel : cfg.rows - 1 ≤ fuel) :
    (run fuel { cfg with height := H1 } (Engine.fresh L (fun _ => false))).1 =
        Outcome.completed (naiveSweep cfg) ∧
    (run fuel { cfg with height := H2 } (Engine.fresh L (fun _ => false))).1 =
      (run fuel { cfg with height := H1 } (Engine.fresh L (fun _ => false))).1 := by
  have hrel : (Engine.fresh L (fun _ => false)).Reliable := fun _ => rfl
  have h1 := run_eq_naiveSweep fuel { cfg with height := H1 } _ hrel hL hrows hcols hfit hH1
    hb1 hfuel
  have h2 := run_eq_naiveSweep fuel { cfg with height := H2 } _ hrel hL hrows hcols hfit hH2
    hb2 hfuel
  rw [naiveSweep_height] at h1 h2
  exact ⟨h1, h2.trans h1.symm⟩

theorem run_refines_naiveSweep_witness :
    ((run 2 { exampleGrid 0 with height := 1 } (Engine.fresh 256 (fun _ => false))).1 =
        Outcome.completed (naiveSweep (exampleGrid 0)) ∧
      (run 2 { exampleGrid 0 with height := 2 } (Engine.fresh 256 (fun _ => false))).1 =
        (run 2 { exampleGrid 0 with height := 1 } (Engine.fresh 256 (fun _ => false))).1) ∧
    naiveSweep (exampleGrid 0) = [2, 6, 2, 4, 5] :=
  ⟨run_refines_naiveSweep 2 (exampleGrid 0) 1 2 256 (by decide) (by decide) (by decide)
    (by decide) (by decide) (by decide) (by decide) (by decide) (by decide), by decide⟩

/-- C5: for every grid with `rows = 1` (any `cols ≥ 1` fitting `size_t`, any chunk
height, any fuel) on a reliable engine with a non-zero work-group size, `run()`
issues no dispatch and completes with row 0 of the grid, element for element. -/
theorem run_single_row (fuel : Nat) (cfg : Config) (cl : Engine) (hrel : cl.Reliable)
    (hL : cl.maxWorkGroupSize ≠ 0) (hrows : cfg.rows = 1) (hcols : 1 ≤ cfg.cols)
    (hfit : cfg.cols < 2 ^ 64) :
    (run fuel cfg cl).1 = Outcome.completed (cfg.data.take cfg.cols.toNat) ∧
    (run fuel cfg cl).2.dispatched = cl.dispatched := by
  obtain ⟨cl3, _, hd3, _, hm1, hdone⟩ := run_reliable_done fuel cfg cl hrel hL
  have hexit := chunkLoop_exit cfg (toSizeT (wrapInt (cfg.rows * cfg.cols)))
    (localWorkSize (toSizeT (wrapInt (cfg.rows * cfg.cols))) cl.maxWorkGroupSize)
    cl.nextHandle (cl.nextHandle + 1) (cl.nextHandle + 2) fuel 0 0 cl3 (by
      rw [hrows]
      decide)
  obtain ⟨h1, h2⟩ := hdone 0 cl3 hexit
  have hsz : toSizeT cfg.cols = cfg.cols.toNat := toSizeT_of_fit _ (by omega) hfit
  refine ⟨?_, h2.trans hd3⟩
  rw [h1]
  simp only [resultD, if_true, hm1, hsz, List.take_take, min_self]

theorem run_single_row_witness :
    (run 0 { cols := 3, rows := 1, height := -4, data := [7, 8, 9] }
        (Engine.fresh 2 (fun _ => false))).1 = Outcome.completed [7, 8, 9] ∧
    (run 0 { cols := 3, rows := 1, height := -4, data := [7, 8, 9] }
        (Engine.fresh 2 (fun _ => false))).2.dispatched = [] :=
  run_single_row 0 { cols := 3, rows := 1, height := -4, data := [7, 8, 9] }
    (Engine.fresh 2 (fun _ => false)) (fun _ => rfl) (by decide) rfl (by decide) (by decide)

/-! ## The command line -/

theorem optionLoop_usage_ge (opts : List (Char × String)) :
    ∀ (u : Nat) (o : Option String), u ≤ (optionLoop opts (u, o)).1 := by
  induction opts with
  | nil =>
    intro u o
    simp [optionLoop]
  | cons x rest ih =>
    intro u o
    obtain ⟨ch, optarg⟩ := x
    simp only [optionLoop]
    split
    · exact ih u o
    · split
      · exact ih u o
      · split
        · exact ih u _
        · exact Nat.le_trans (Nat.le_succ u) (ih (usage u) o)

theorem optionLoop_usage_known (opts : List (Char × String))
    (hknown : ∀ x ∈ opts, x.1 = 'd' ∨ x.1 = 'p' ∨ x.1 = 'o') :
    ∀ (u : Nat) (o : Option String), (optionLoop opts (u, o)).1 = u := by
  induction opts with
  | nil =>
    intro u o
    simp [optionLoop]
  | cons x rest ih =>
    intro u o
    have hrest : ∀ y ∈ rest, y.1 = 'd' ∨ y.1 = 'p' ∨ y.1 = 'o' :=
      fun y hy => hknown y (List.mem_cons_of_mem _ hy)
    have hx := hknown x (List.mem_cons_self _ _)
    obtain ⟨ch, optarg⟩ := x
    simp only at hx
    simp only [optionLoop]
    split
    · exact ih hrest u o
    · split
      · exact ih hrest u o
      · split
        · exact ih hrest u _
        · rename_i h1 h2 h3
          rcases hx with h | h | h
          · exact absurd h h1
          · exact absurd h h2
          · exact absurd h h3

/-- C8, as stated, fails: the command line `5 1 0` gives a chunk height that is not
a positive integer, yet no usage message is printed, the constructor builds the
grid, the sweep runs, and the process exits with `EXIT_SUCCESS`. -/
theorem main_accepts_zero_height :
    atoi "0" = 0 ∧
    (Application (fun k => k) [] ["5", "1", "0"]).usageCalls = 0 ∧
    (Application (fun k => k) [] ["5", "1", "0"]).config.map
      (fun c => (c.cols, c.rows, c.height, c.data.length)) = some (5, 1, 0, 5) ∧
    main (fun k => k) 0 (Engine.fresh 1 (fun _ => false)) [] ["5", "1", "0"] =
      (0, ExitStatus.success) := by
  decide

/-- The fill loop stays inside its block when both dimensions are positive and their
product fits an `int`, and it writes nothing when one of them is not positive. -/
theorem fillFits_of_fit (rows cols : Int) (hfit : rows * cols ≤ INT_MAX) :
    fillFits rows cols = true := by
  unfold fillFits
  by_cases hr : rows ≤ 0
  · simp [hr]
  · by_cases hc : cols ≤ 0
    · simp [hc]
    · have hG := gwsize_of_fit rows cols (by omega) (by omega) hfit
      have hpos : 1 ≤ rows * cols := by nlinarith
      unfold INT_MAX at hfit
      have hcells : ((rows.toNat * cols.toNat : Nat) : Int) = rows * cols := by
        push_cast
        rw [Int.toNat_of_nonneg (by omega), Int.toNat_of_nonneg (by omega)]
      have hbytes : dataBytes rows cols = toSizeT (wrapInt (rows * cols)) * 4 := by
        unfold dataBytes
        apply Nat.mod_eq_of_lt
        omega
      have h1 : dataBytes rows cols ≤ PTRDIFF_MAX := by
        rw [hbytes]
        unfold PTRDIFF_MAX
        omega
      have h2 : rows.toNat * cols.toNat * 4 ≤ dataBytes rows cols := by
        rw [hbytes]
        omega
      simp [h1, h2]

/-- C8, amended: a command line with fewer than three positional arguments makes the
constructor print the usage message; a command line with at least three positional
arguments and only the options `d`, `p`, `o` is never reported: no usage message is
printed, a configuration that is built holds the 32-bit values `atoi` returns for the
columns, rows and height arguments, whatever their sign, and the constructor does go
on to build it whenever the product of rows and columns fits an `int`. -/
theorem construct_usage (random : Nat → Int) (opts : List (Char × String))
    (args : List String) :
    (args.length < 3 → 1 ≤ (Application random opts args).usageCalls) ∧
    (∀ a0 a1 a2 rest, args = a0 :: a1 :: a2 :: rest →
      (∀ x ∈ opts, x.1 = 'd' ∨ x.1 = 'p' ∨ x.1 = 'o') →
      (Application random opts args).usageCalls = 0 ∧
      (∀ c, (Application random opts args).config = some c →
        c.cols = atoi a0 ∧ c.rows = atoi a1 ∧ c.height = atoi a2) ∧
      (atoi a1 * atoi a0 ≤ INT_MAX →
        (Application random opts args).config.map (fun c => (c.cols, c.rows, c.height)) =
          some (atoi a0, atoi a1, atoi a2))) := by
  constructor
  · intro hlen
    have hge := optionLoop_usage_ge opts 0 none
    unfold Application
    generalize optionLoop opts (0, none) = q at hge
    obtain ⟨u, o⟩ := q
    simp only [hlen, if_true, usage]
    split
    · split <;> simp
    · simp
  · intro a0 a1 a2 rest hargs hknown
    have hk := optionLoop_usage_known opts hknown 0 none
    subst hargs
    unfold Application
    generalize optionLoop opts (0, none) = q at hk
    obtain ⟨u, o⟩ := q
    simp only at hk
    subst hk
    refine ⟨?_, ?_, ?_⟩
    · simp only [List.length_cons, List.get?_cons_zero, List.get?_cons_succ]
      split <;> simp
    · intro c hc
      simp only [List.length_cons, List.get?_cons_zero, List.get?_cons_succ] at hc
      split at hc
      · simp at hc
        subst hc
        exact ⟨rfl, rfl, rfl⟩
      · simp at hc
    · intro hfit
      simp [fillFits_of_fit (atoi a1) (atoi a0) hfit]

theorem construct_usage_witness :
    1 ≤ (Application (fun k => k) [] ["7"]).usageCalls ∧
    (Application (fun k => k) [('o', "out")] ["x", "3", "0"]).usageCalls = 0 ∧
    (Application (fun k => k) [('o', "out")] ["x", "3", "0"]).config.map
        (fun c => (c.cols, c.rows, c.height)) =
      some (atoi "x", atoi "3", atoi "0") :=
  ⟨(construct_usage (fun k => k) [] ["7"]).1 (by decide),
    ((construct_usage (fun k => k) [('o', "out")] ["x", "3", "0"]).2 "x" "3" "0" [] rfl
      (by decide)).1,
    ((construct_usage (fun k => k) [('o', "out")] ["x", "3", "0"]).2 "x" "3" "0" [] rfl
      (by decide)).2.2 (by decide)⟩

end Pf
